import Mathlib

/-!
Verification of the headway-optimisation GTFS data pipeline.

This file gives a shallow embedding, as Lean definitions over lists of
records, of the dataframe operations of the repository:

* `removeDuplicateObservations` embeds `remove_duplicate_observations`
  (src/realtime/gtfs_rt_clean.py), i.e. `df.unique(subset, keep=first)`.
* `imputeRouteFromNeighbors` embeds `impute_route_from_neighbors`
  (forward/backward fill of route_id per vehicle, filled when they agree).
* `deriveTripCounts` embeds `derive_trip_counts` (trip segmentation by
  stop-sequence rollback / jump detection).
* `computeNearestStop` embeds `compute_nearest_stop` (cross join with the
  stops table, euclidean-approximation distance, sort by distance and keep
  the first row of every (lat, lon) group).
* `runTasks` and friends embed the phase-2/phase-3 accumulation loop of
  `process_tar_to_normalized_parquet` (src/sim_bridge/tar2parquet.py).
* `canonicalizeName` embeds the timestamp-recovery helper of
  tar2parquet.py that builds a canonical json file name.
* `staticHeadway` embeds the headway computation of
  src/headway/gtfs_static.py (departure-time parsing, per route/stop
  sorting, diff over groups).

Polars expressions are embedded by their documented positional semantics:
an `over(k)` window partitions rows by the value of column k keeping the
original row order inside every partition, `forward_fill` takes the
nearest preceding non-null value of the partition, `shift(1)` the value of
the preceding row of the partition, `cum_sum` the running sum over the
partition, and comparisons propagate nulls (Kleene logic), with
`fill_null` applied afterwards.  Machine floats of the source are embedded
as exact rationals (every float is a rational); the two transcendental
operations of the distance formula (cosine, square root) are embedded as
the corresponding real functions.
-/

unseal List.merge List.mergeSort

/-! ### Generic keep-first deduplication

`df.unique(subset=key, keep=first)` keeps, for every distinct key, the
first row of the dataframe carrying that key.  `remove_duplicate_observations`
(gtfs_rt_clean.py line 48) is exactly this call, and the
`group_by(...).first()` after a sort reuses the same core operation. -/

/-- Keep-first deduplication by key, carrying the set of keys already seen. -/
def dedupKeyAux {α κ : Type} [DecidableEq κ] (key : α → κ) : List κ → List α → List α
  | _, [] => []
  | seen, r :: rs =>
    if key r ∈ seen then dedupKeyAux key seen rs
    else r :: dedupKeyAux key (key r :: seen) rs

/-- Embeds remove_duplicate_observations(df, subset): df.unique(subset, keep=first).
The key function plays the role of the subset of columns. -/
def removeDuplicateObservations {α κ : Type} [DecidableEq κ] (key : α → κ) (df : List α) : List α :=
  dedupKeyAux key [] df

/-! ### Realtime rows and the route_id imputation

A realtime observation after the join of vehicle positions with trip
updates: vehicle_id, snapshot_ts, a nullable route_id, and the remaining
columns abstracted into a payload field. -/

structure RtRow where
  vehicle_id : String
  snapshot_ts : Int
  route_id : Option String
  payload : Int
deriving DecidableEq, Repr

/-- Default row used by positional lookups. -/
def dR : RtRow := { vehicle_id := "", snapshot_ts := 0, route_id := none, payload := 0 }

/-- Sort key of df.sort([vehicle_id, snapshot_ts]): lexicographic comparison
(strings compare by their character sequences, as polars compares by bytes
and UTF-8 preserves the codepoint order). -/
def rtLe (a b : RtRow) : Bool :=
  decide (a.vehicle_id.data < b.vehicle_id.data) ||
    (decide (a.vehicle_id = b.vehicle_id) && decide (a.snapshot_ts ≤ b.snapshot_ts))

/-- Embeds df.sort([vehicle_id, snapshot_ts]). -/
def sortRt (df : List RtRow) : List RtRow :=
  df.mergeSort rtLe

/-- State of the forward fill: for every vehicle already seen, its most
recent non-null route_id (most recent binding first). -/
def ffStep (st : List (String × String)) (r : RtRow) : List (String × String) :=
  match r.route_id with
  | some v => (r.vehicle_id, v) :: st
  | none => st

/-- Embeds route_id.forward_fill().over(vehicle_id): every row receives the
nearest preceding non-null route_id of its own vehicle (its own value when
non-null). -/
def forwardFillVeh (st : List (String × String)) : List RtRow → List (Option String)
  | [] => []
  | r :: rs =>
    List.lookup r.vehicle_id (ffStep st r) :: forwardFillVeh (ffStep st r) rs

/-- First non-null route_id of vehicle v in q (searching from the front). -/
def firstRoute (q : List RtRow) (v : String) : Option String :=
  (q.find? (fun r => r.vehicle_id == v && r.route_id.isSome)).bind RtRow.route_id

/-- Last non-null route_id of vehicle v in p (searching from the back). -/
def lastRoute (p : List RtRow) (v : String) : Option String :=
  firstRoute p.reverse v

/-- First some of two options. -/
def optOr (a b : Option String) : Option String :=
  match a with
  | some x => some x
  | none => b

/-- The when/then/otherwise of impute_route_from_neighbors, applied to one
row together with its forward-fill and backward-fill values: fill a null
route_id when the two fills agree on a non-null value. -/
def imputeStep (r : RtRow) (fb : Option String × Option String) : RtRow :=
  if r.route_id = none ∧ fb.1 ≠ none ∧ fb.1 = fb.2 then
    { r with route_id := fb.1 }
  else r

/-- Embeds impute_route_from_neighbors (gtfs_rt_clean.py lines 52-58):
sort by (vehicle_id, snapshot_ts), forward fill and backward fill route_id
over vehicle_id, and fill a null route_id when the two fills agree. -/
def imputeRouteFromNeighbors (df : List RtRow) : List RtRow :=
  List.zipWith imputeStep (sortRt df)
    ((forwardFillVeh [] (sortRt df)).zip ((forwardFillVeh [] (sortRt df).reverse).reverse))

/-- Nearest preceding non-null route_id of vehicle v strictly before index i
of s (the claim's nearest preceding value in snapshot_ts order). -/
def prevRoute (s : List RtRow) (i : Nat) (v : String) : Option String :=
  lastRoute (s.take i) v

/-- Nearest following non-null route_id of vehicle v strictly after index i
of s (the claim's nearest following value in snapshot_ts order). -/
def nextRoute (s : List RtRow) (i : Nat) (v : String) : Option String :=
  firstRoute (s.drop (i + 1)) v

/-! ### Trip segmentation

derive_trip_counts (gtfs_rt_clean.py lines 94-100): sort by
(vehicle_id, snapshot_ts), build the boolean column

  cond = (seq < seq.shift(1)) or (abs(seq - seq.shift(1)) > 5)

windowed over vehicle_id, fill_null(True), cast to int and cum_sum over
vehicle_id.  The location-based stop sequence column is nullable (it comes
from a left join), so the comparisons follow the Kleene logic of polars. -/

structure SeqRow where
  vehicle_id : String
  snapshot_ts : Int
  seq : Option Int
deriving DecidableEq, Repr

/-- Default row used by positional lookups. -/
def dS : SeqRow := { vehicle_id := "", snapshot_ts := 0, seq := none }

/-- Sort key of df.sort([vehicle_id, snapshot_ts]). -/
def seqLe (a b : SeqRow) : Bool :=
  decide (a.vehicle_id.data < b.vehicle_id.data) ||
    (decide (a.vehicle_id = b.vehicle_id) && decide (a.snapshot_ts ≤ b.snapshot_ts))

/-- Embeds df.sort([vehicle_id, snapshot_ts]) for trip segmentation. -/
def sortSeq (df : List SeqRow) : List SeqRow :=
  df.mergeSort seqLe

/-- Kleene disjunction of nullable booleans (polars null propagation). -/
def kOr : Option Bool → Option Bool → Option Bool
  | some true, _ => some true
  | _, some true => some true
  | some false, some false => some false
  | _, _ => none

/-- Lift a binary comparison to nullable operands (null propagation). -/
def lift2 (f : Int → Int → Bool) : Option Int → Option Int → Option Bool
  | some a, some b => some (f a b)
  | _, _ => none

/-- Embeds seq.shift(1).over(vehicle_id) at position i: the seq value of the
nearest preceding row of vehicle v, null when there is none (the value
itself may also be null). -/
def shiftSeqOver (s : List SeqRow) (i : Nat) (v : String) : Option Int :=
  ((s.take i).reverse.find? (fun q => q.vehicle_id == v)).bind SeqRow.seq

/-- Embeds the new-trip condition (cur < prev) or (abs(cur - prev) > 5)
with null propagation. -/
def tripCond (cur prev : Option Int) : Option Bool :=
  kOr (lift2 (fun c p => decide (c < p)) cur prev)
    (lift2 (fun c p => decide (5 < (c - p).natAbs)) cur prev)

/-- Embeds cond.over(vehicle_id).fill_null(True) at position i of s. -/
def isNewTrip (s : List SeqRow) (i : Nat) : Bool :=
  (tripCond (s.getD i dS).seq (shiftSeqOver s i (s.getD i dS).vehicle_id)).getD true

/-- Embeds cond.cast(Int32).cum_sum().over(vehicle_id) at position i: the
number of positions j ≤ i of the same vehicle whose condition was true. -/
def tripCountAt (s : List SeqRow) (i : Nat) : Nat :=
  ((List.range (i + 1)).filter
    (fun j => (s.getD j dS).vehicle_id == (s.getD i dS).vehicle_id && isNewTrip s j)).length

/-- Running count of new-trip positions of the vehicle of position i among
the first m positions (tripCountAt s i is tcnt s i (i+1)). -/
def tcnt (s : List SeqRow) (i m : Nat) : Nat :=
  ((List.range m).filter
    (fun j => (s.getD j dS).vehicle_id == (s.getD i dS).vehicle_id && isNewTrip s j)).length

/-- Embeds derive_trip_counts: the sorted rows paired with their trip_count
column. -/
def deriveTripCounts (df : List SeqRow) : List (SeqRow × Nat) :=
  (List.range (sortSeq df).length).map
    (fun i => ((sortSeq df).getD i dS, tripCountAt (sortSeq df) i))

/-! ### Nearest stop assignment

compute_nearest_stop (gtfs_rt_clean.py lines 72-91): cross join of the
unique realtime coordinates with the stops table, distance column

  distance_m = sqrt(((lat - stop_lat) * 111111)^2
                    + ((lon - stop_lon) * cos(deg2rad((lat + stop_lat)/2)) * 111320)^2)

then sort by distance_m and keep the first row of every (lat, lon) group.
Coordinates are embedded as rationals (machine floats are rationals); the
distance value lives in the reals. -/

structure CoordRow where
  lat : ℚ
  lon : ℚ
deriving DecidableEq, Repr

structure StopRow where
  stop_name : String
  stop_lat : ℚ
  stop_lon : ℚ
deriving DecidableEq, Repr

/-- Output row of compute_nearest_stop: the coordinate, the name of the
nearest stop and its distance. -/
structure NearestRow where
  lat : ℚ
  lon : ℚ
  nearest_stop : String
  distance_m : ℝ

/-- The distance column of compute_nearest_stop, with lat_avg and
lon_factor inlined (deg2rad x = x * pi / 180). -/
noncomputable def distance_m (lat lon slat slon : ℚ) : ℝ :=
  Real.sqrt
    ((((lat : ℝ) - (slat : ℝ)) * 111111) ^ 2 +
      (((lon : ℝ) - (slon : ℝ)) *
        (Real.cos (((lat : ℝ) + (slat : ℝ)) / 2 * Real.pi / 180) * 111320)) ^ 2)

/-- Distance of a cross-join row. -/
noncomputable def rowDist (r : CoordRow × StopRow) : ℝ :=
  distance_m r.1.lat r.1.lon r.2.stop_lat r.2.stop_lon

open scoped Classical in
/-- Comparison of the sort by the distance_m column. -/
noncomputable def distLe (a b : CoordRow × StopRow) : Bool :=
  decide (rowDist a ≤ rowDist b)

/-- Embeds df_with_dist.sort(distance_m). -/
noncomputable def sortByDist (l : List (CoordRow × StopRow)) : List (CoordRow × StopRow) :=
  l.mergeSort distLe

/-- The (lat, lon) group key. -/
def coordKey (r : CoordRow × StopRow) : ℚ × ℚ :=
  (r.1.lat, r.1.lon)

/-- Embeds compute_nearest_stop: cross join, distance, sort by distance,
group_by((lat, lon)).first(), select and rename.  The polars group_by
without maintain_order returns the groups in an unspecified order; the
first row of each group is the first occurrence of the key in the sorted
frame, so the result is embedded as the keep-first deduplication of the
sorted frame (one definite order among the permutations polars may
return). -/
noncomputable def computeNearestStop (coords : List CoordRow) (stops : List StopRow) :
    List NearestRow :=
  (dedupKeyAux coordKey [] (sortByDist (coords.product stops))).map
    (fun r =>
      { lat := r.1.lat, lon := r.1.lon, nearest_stop := r.2.stop_name,
        distance_m := rowDist r })

/-! ### tar2parquet: the normalized-parquet accumulation loop

process_tar_to_normalized_parquet (tar2parquet.py lines 332-546) reads
json members from the tar (phase 1), parses every member with
_process_single_json either sequentially or with a process pool (phase 2),
and concatenates and writes the parsed frames per (agency, feed_type,
date_str) partition (phase 3).  The external json loaders
(gtfsrt_json2Parquet) are abstracted as a pure function from a task to an
optional parsed frame; _process_single_json additionally drops empty
frames and turns every exception into None.  Phase 2 accumulates, per
completed task: the processed and skipped counters, the detected agencies
with their per-feed statistics (embedded as the multiset of
(agency, feed_type) events), and the parsed rows of the two feed types
(embedded as multisets, since phase 3 only partitions and writes them). -/

inductive FeedType where
  | trip_updates
  | vehicle_positions
deriving DecidableEq, Repr

/-- A parsed record: the agency and date_str partition columns plus the
remaining columns abstracted into a payload. -/
structure TarRec where
  agency : String
  date_str : String
  payload : Int
deriving DecidableEq, Repr

/-- Accumulated state of phase 2 together with the rows phase 3 writes. -/
@[ext]
structure TarSummary where
  processed : Nat
  skipped : Nat
  statsEvents : Multiset (String × FeedType)
  tuRows : Multiset TarRec
  vpRows : Multiset TarRec
deriving DecidableEq

/-- Summary update of a skipped task. -/
def addSkip (s : TarSummary) : TarSummary :=
  { s with skipped := s.skipped + 1 }

/-- The empty summary at the start of phase 2. -/
def initSummary : TarSummary :=
  { processed := 0, skipped := 0, statsEvents := 0, tuRows := 0, vpRows := 0 }

/-- Embeds agency = df[agency][0]: the agency of the first record (the
frames reaching this point are never empty, the default mirrors the
unknown fallback of the source). -/
def headAgency : List TarRec → String
  | [] => "unknown"
  | r :: _ => r.agency

/-- Embeds the filter test: a row is kept unless allowed_agencies is a
non-empty set (a falsy empty set disables the filter, as in python) that
does not contain the agency. -/
def keepAgency (allowed : Option (List String)) (a : String) : Bool :=
  match allowed with
  | none => true
  | some l => l.isEmpty || l.contains a

/-- Embeds _process_single_json given the abstract loader: None on loader
failure (exception) and on empty frames, otherwise the feed type and the
parsed frame. -/
def processSingleJson {τ : Type} (parse : τ → Option (FeedType × List TarRec)) (t : τ) :
    Option (FeedType × List TarRec) :=
  match parse t with
  | none => none
  | some (ft, df) => if df.isEmpty then none else some (ft, df)

/-- Embeds the handling of one completed parse result in phase 2 (the
sequential and the parallel loop bodies are identical): a None result is
skipped; otherwise the (agency, feed_type) statistics event is recorded,
the agency filter decides between skipping and storing the frame, and the
processed counter advances. -/
def stepResult (allowed : Option (List String)) (s : TarSummary)
    (res : Option (FeedType × List TarRec)) : TarSummary :=
  match res with
  | none => { s with skipped := s.skipped + 1 }
  | some (ft, df) =>
    if keepAgency allowed (headAgency df) then
      match ft with
      | FeedType.trip_updates =>
        { s with statsEvents := (headAgency df, ft) ::ₘ s.statsEvents,
                 tuRows := (df : Multiset TarRec) + s.tuRows,
                 processed := s.processed + 1 }
      | FeedType.vehicle_positions =>
        { s with statsEvents := (headAgency df, ft) ::ₘ s.statsEvents,
                 vpRows := (df : Multiset TarRec) + s.vpRows,
                 processed := s.processed + 1 }
    else
      { s with statsEvents := (headAgency df, ft) ::ₘ s.statsEvents,
               skipped := s.skipped + 1 }

/-- Embeds phase 2 over a list of tasks in a given completion order. -/
def runTasks {τ : Type} (parse : τ → Option (FeedType × List TarRec))
    (allowed : Option (List String)) (tasks : List τ) : TarSummary :=
  tasks.foldl (fun s t => stepResult allowed s (processSingleJson parse t)) initSummary

/-- Embeds the phase-3 partitioning: the rows written to the parquet file
of one (agency, date_str) partition of a feed. -/
def partitionRows (m : Multiset TarRec) (a d : String) : Multiset TarRec :=
  m.filter (fun r => r.agency = a ∧ r.date_str = d)

/-- Embeds the detected_agencies set. -/
def detectedAgencies (s : TarSummary) : Finset String :=
  (s.statsEvents.map Prod.fst).toFinset

/-- Embeds stats[agency][feed_type]. -/
def statCount (s : TarSummary) (a : String) (ft : FeedType) : Nat :=
  s.statsEvents.count (a, ft)

/-! ### tar2parquet phase 1: reading members from the tar

Phase 1 lists json member files, infers the feed type from the member name
(substring tests), extracts the content, and on any extraction exception
silently continues with the remaining members.  Content bytes are
abstracted into a type parameter. -/

/-- Character-list test: does s start with pat. -/
def chStarts : List Char → List Char → Bool
  | _, [] => true
  | [], _ :: _ => false
  | a :: as, b :: bs => a == b && chStarts as bs

/-- Character-list test: does s contain pat as a contiguous run. -/
def chHasSub : List Char → List Char → Bool
  | [], pat => pat.isEmpty
  | a :: as, pat => chStarts (a :: as) pat || chHasSub as pat

/-- Embeds the python substring test (pat in s). -/
def strHasSub (s pat : String) : Bool :=
  chHasSub s.toList pat.toList

/-- Embeds s.endswith(pat). -/
def strEnds (s pat : String) : Bool :=
  chStarts s.toList.reverse pat.toList.reverse

/-- Embeds the feed-type inference from the member name. -/
def feedTypeOf (name : String) : Option FeedType :=
  if strHasSub name "trip_update" then some FeedType.trip_updates
  else if strHasSub name "vehicle_position" then some FeedType.vehicle_positions
  else none

/-- A tar member: its name, whether it is a regular file, and the content
the extraction returns (None embeds an extraction exception). -/
structure TarMember (γ : Type) where
  name : String
  isfile : Bool
  content : Option γ

/-- Embeds phase 1: keep regular json members with a recognized feed type
whose extraction succeeded, producing (name, content, feed_type) tasks. -/
def buildTasks {γ : Type} (members : List (TarMember γ)) : List (String × γ × FeedType) :=
  members.filterMap (fun m =>
    if m.isfile && strEnds m.name ".json" then
      match feedTypeOf m.name with
      | none => none
      | some ft =>
        match m.content with
        | none => none
        | some c => some (m.name, c, ft)
    else none)

/-- Embeds process_tar_to_normalized_parquet up to the rows phase 3
writes: phase 1 builds the tasks, phase 2 folds over them. -/
def processTarToNormalizedParquet {γ : Type}
    (parse : String × γ × FeedType → Option (FeedType × List TarRec))
    (allowed : Option (List String)) (members : List (TarMember γ)) : TarSummary :=
  runTasks parse allowed (buildTasks members)

/-! ### The canonical file-name helper of tar2parquet

The helper at tar2parquet.py lines 300-329 (source name
_canonicalize_name_for_parser) rebuilds a file name carrying the feed
timestamp.  Json content is embedded as an optional Json value (None
embeds bytes json.loads rejects); json numbers are embedded as integers
(the feed timestamps are integral).  Python exception paths inside the
try block all end in the 19700101_000000 fallback. -/

inductive Json where
  | null
  | bool (b : Bool)
  | num (n : Int)
  | str (s : String)
  | arr (xs : List Json)
  | obj (fields : List (String × Json))

/-- Embeds the python dict built by json.loads: a later duplicate key wins. -/
def jget (fields : List (String × Json)) (k : String) : Option Json :=
  (fields.reverse.find? (fun kv => kv.1 == k)).map Prod.snd

/-- Embeds dict.get(k): absent keys and json null both give python None. -/
def pyGet (fields : List (String × Json)) (k : String) : Option Json :=
  match jget fields k with
  | some Json.null => none
  | v => v

/-- Python truthiness of a json value. -/
def jTruthy : Json → Bool
  | Json.null => false
  | Json.bool b => b
  | Json.num n => decide (n ≠ 0)
  | Json.str s => !s.isEmpty
  | Json.arr xs => !xs.isEmpty
  | Json.obj fs => !fs.isEmpty

/-- Embeds (x or d): the value when truthy, the default otherwise. -/
def pyOr (v : Option Json) (d : Json) : Json :=
  match v with
  | some j => if jTruthy j then j else d
  | none => d

/-- Timestamp of one entity: the trip_update timestamp when the entity has
a trip_update dict, else the vehicle timestamp when it has a vehicle dict. -/
def entityTs (fields : List (String × Json)) : Option Json :=
  match jget fields "trip_update" with
  | some (Json.obj tf) => pyGet tf "timestamp"
  | _ =>
    match jget fields "vehicle" with
    | some (Json.obj vf) => pyGet vf "timestamp"
    | _ => none

/-- The entity loop: the first non-None entity timestamp, scanning dict
entities in order. -/
def findEntityTs : List Json → Option Json
  | [] => none
  | Json.obj fields :: rest =>
    match entityTs fields with
    | some ts => some ts
    | none => findEntityTs rest
  | _ :: rest => findEntityTs rest

/-- Embeds the timestamp extraction of the try block: the header timestamp
when present, else the first entity timestamp; None on every fallback path
(invalid json, non-dict feed or header, no timestamp found, non-list
entity value). -/
def extractTs : Option Json → Option Json
  | none => none
  | some (Json.obj fields) =>
    match pyOr (jget fields "header") (Json.obj []) with
    | Json.obj hf =>
      match pyGet hf "timestamp" with
      | some ts => some ts
      | none =>
        match pyOr (jget fields "entity") (Json.arr []) with
        | Json.arr ents => findEntityTs ents
        | _ => none
    | _ => none
  | some _ => none

/-- Numeric value of a non-empty all-digit character run. -/
def digitsVal (cs : List Char) : Option Nat :=
  if cs.isEmpty || !cs.all Char.isDigit then none
  else some (cs.foldl (fun a c => 10 * a + (c.toNat - 48)) 0)

/-- Integer parse of a character run: optional sign then digits. -/
def parseIntChars (cs : List Char) : Option Int :=
  match cs with
  | c :: rest =>
    if c == Char.ofNat 45 then (digitsVal rest).map (fun n => -(n : Int))
    else if c == Char.ofNat 43 then (digitsVal rest).map (fun n => (n : Int))
    else (digitsVal cs).map (fun n => (n : Int))
  | [] => none

/-- Embeds python int(s) on strings: whitespace is stripped, then an
optional sign and digits. -/
def parseIntStr (s : String) : Option Int :=
  parseIntChars
    (((s.toList.dropWhile (fun c => c == Char.ofNat 32)).reverse.dropWhile
      (fun c => c == Char.ofNat 32)).reverse)

/-- Embeds python int(ts) on a json value: integers and booleans convert,
numeric strings parse, everything else raises (None). -/
def toPyInt : Json → Option Int
  | Json.num n => some n
  | Json.bool b => some (if b then 1 else 0)
  | Json.str s => parseIntStr s
  | _ => none

/-- Two-digit zero padding. -/
def pad2 (n : Int) : String :=
  if n < 10 then "0" ++ toString n else toString n

/-- Four-digit zero padding for the year field. -/
def pad4 (n : Int) : String :=
  if n < 10 then "000" ++ toString n
  else if n < 100 then "00" ++ toString n
  else if n < 1000 then "0" ++ toString n
  else toString n

/-- Proleptic-Gregorian civil date from days since 1970-01-01 (the
standard era-based conversion datetime.utcfromtimestamp performs). -/
def civilFromDays (z0 : Int) : Int × Int × Int :=
  let z := z0 + 719468
  let era := Int.ediv z 146097
  let doe := z - era * 146097
  let yoe := Int.ediv (doe - Int.ediv doe 1460 + Int.ediv doe 36524 - Int.ediv doe 146096) 365
  let y := yoe + era * 400
  let doy := doe - (365 * yoe + Int.ediv yoe 4 - Int.ediv yoe 100)
  let mp := Int.ediv (5 * doy + 2) 153
  let d := doy - Int.ediv (153 * mp + 2) 5 + 1
  let m := mp + (if mp < 10 then 3 else -9)
  (y + (if m ≤ 2 then 1 else 0), m, d)

/-- Embeds datetime.utcfromtimestamp(n).strftime(YYYYMMDD_HHMMSS): None
when the timestamp falls outside the supported year range 1..9999 (the
python call raises there). -/
def fmtTs (t : Int) : Option String :=
  if t < -62135596800 ∨ 253402300799 < t then none
  else
    let days := Int.ediv t 86400
    let secs := Int.emod t 86400
    let ymd := civilFromDays days
    some (pad4 ymd.1 ++ pad2 ymd.2.1 ++ pad2 ymd.2.2 ++ "_" ++
      pad2 (Int.ediv secs 3600) ++ pad2 (Int.ediv (Int.emod secs 3600) 60) ++
      pad2 (Int.emod secs 60))

/-- The ts_str variable of the helper: the formatted timestamp when every
step succeeds, the epoch fallback on every failure path. -/
def canonTs (content : Option Json) : String :=
  match extractTs content with
  | none => "19700101_000000"
  | some ts =>
    match toPyInt ts with
    | none => "19700101_000000"
    | some n =>
      match fmtTs n with
      | none => "19700101_000000"
      | some s => s

/-- Embeds the canonical-name helper of tar2parquet.py lines 300-329: the
original name is ignored, the result interpolates the feed type and the
recovered timestamp. -/
def canonicalizeName (_originalName feedType : String) (content : Option Json) : String :=
  "gtfs_rt_" ++ feedType ++ "_" ++ canonTs content ++ ".json"

/-! ### Static headway computation

gtfs_static.py lines 96-113: departure_time_seconds is parsed from the
fixed-width departure_time string by slicing (0,2), (3,2), (6,2) and
casting to Int64; route_id_extracted takes the third underscore-delimited
field of trip_id; the frame is sorted by (route_id_extracted, stop_id,
departure_time_seconds) and headway_s is the diff of
departure_time_seconds over (route_id_extracted, stop_id) groups.  Null
sort keys come first (the polars default); a failed strict cast is
embedded as a null departure_time_seconds. -/

structure StRow where
  trip_id : String
  stop_id : String
  departure_time : String
deriving DecidableEq, Repr

/-- Default row used by positional lookups. -/
def dSt : StRow := { trip_id := "", stop_id := "", departure_time := "" }

/-- Embeds str.slice(off, len): a substring by character positions. -/
def sliceStr (s : String) (off len : Nat) : String :=
  String.mk ((s.toList.drop off).take len)

/-- Embeds the strict polars Utf8 to Int64 cast: optional sign and digits. -/
def castInt64 (s : String) : Option Int :=
  parseIntChars s.toList

/-- Embeds departure_time_seconds: 3600 h + 60 m + s from the three
fixed-width slices of departure_time. -/
def depSeconds (r : StRow) : Option Int :=
  match castInt64 (sliceStr r.departure_time 0 2),
      castInt64 (sliceStr r.departure_time 3 2),
      castInt64 (sliceStr r.departure_time 6 2) with
  | some h, some m, some s => some (3600 * h + 60 * m + s)
  | _, _, _ => none

/-- Embeds trip_id.str.extract of the third underscore-delimited field:
the anchored pattern requires three non-empty runs separated by two
underscores and captures the third run. -/
def extractRouteId (s : String) : Option String :=
  match s.splitOn "_" with
  | f1 :: f2 :: f3 :: _ =>
    if f1 ≠ "" ∧ f2 ≠ "" ∧ f3 ≠ "" then some f3 else none
  | _ => none

/-- Group key of the headway window: (route_id_extracted, stop_id). -/
def stGroup (r : StRow) : Option String × String :=
  (extractRouteId r.trip_id, r.stop_id)

/-- A departure_time string the strict casts accept: at least eight
characters with digits at the six sliced positions. -/
def timeWF (t : String) : Bool :=
  match t.toList with
  | c0 :: c1 :: _ :: c3 :: c4 :: _ :: c6 :: c7 :: _ =>
    c0.isDigit && c1.isDigit && c3.isDigit && c4.isDigit && c6.isDigit && c7.isDigit
  | _ => false

/-- A nullable integer column viewed with nulls as the bottom element (the
polars default puts nulls first in a sort). -/
def obInt (o : Option Int) : WithBot Int := o

/-- A nullable string column viewed with nulls as the bottom element,
strings taken as their character sequences. -/
def obStr (o : Option String) : WithBot (List Char) :=
  o.map String.data

/-- Full sort key: (route_id_extracted, stop_id, departure_time_seconds),
lexicographic with nulls first (WithBot makes null the bottom element;
strings compare by their character sequences). -/
def stKey (r : StRow) : Lex (WithBot (List Char) × Lex (List Char × WithBot Int)) :=
  toLex (obStr (extractRouteId r.trip_id),
    toLex (r.stop_id.data, obInt (depSeconds r)))

/-- Boolean sort comparison for the headway sort. -/
def stLe (a b : StRow) : Bool :=
  decide (stKey a ≤ stKey b)

/-- Embeds the sort by (route_id_extracted, stop_id, departure_time_seconds). -/
def sortSt (df : List StRow) : List StRow :=
  df.mergeSort stLe

/-- Embeds departure_time_seconds.diff().over((route_id_extracted, stop_id))
at position i of s: current minus the value of the nearest preceding row
of the same group, null at the first row of a group and under null
operands. -/
def headwayAt (s : List StRow) (i : Nat) : Option Int :=
  match (s.take i).reverse.find? (fun q => decide (stGroup q = stGroup (s.getD i dSt))) with
  | none => none
  | some p =>
    match depSeconds (s.getD i dSt), depSeconds p with
    | some a, some b => some (a - b)
    | _, _ => none

/-- Embeds the df_lazy pipeline of gtfs_static.py: the sorted rows paired
with their headway_s column. -/
def staticHeadway (df : List StRow) : List (StRow × Option Int) :=
  (List.range (sortSt df).length).map
    (fun i => ((sortSt df).getD i dSt, headwayAt (sortSt df) i))

/-! ## Helper lemmas -/

theorem optOr_none_right (a : Option String) : optOr a none = a := by
  cases a <;> rfl

theorem optOr_assoc (a b c : Option String) :
    optOr (optOr a b) c = optOr a (optOr b c) := by
  cases a <;> rfl

theorem firstRoute_nil (v : String) : firstRoute [] v = none := rfl

theorem firstRoute_cons (r : RtRow) (q : List RtRow) (v : String) :
    firstRoute (r :: q) v =
      if r.vehicle_id == v && r.route_id.isSome then r.route_id else firstRoute q v := by
  simp only [firstRoute, List.find?_cons]
  rcases h : r.vehicle_id == v && r.route_id.isSome with _ | _ <;> simp [h]

theorem lastRoute_nil (v : String) : lastRoute [] v = none := rfl

theorem lastRoute_cons (r : RtRow) (q : List RtRow) (v : String) :
    lastRoute (r :: q) v =
      optOr (lastRoute q v)
        (if r.vehicle_id == v && r.route_id.isSome then r.route_id else none) := by
  simp only [lastRoute, firstRoute, List.reverse_cons, List.find?_append]
  cases h : q.reverse.find? (fun s => s.vehicle_id == v && s.route_id.isSome) with
  | none =>
    simp only [Option.none_or, optOr]
    rcases hc : r.vehicle_id == v && r.route_id.isSome with _ | _ <;>
      simp [List.find?_cons, hc]
  | some p =>
    have hp := List.find?_some h
    have : p.route_id.isSome = true := by
      rcases hq : p.route_id with _ | _ <;> simp_all
    rcases hx : p.route_id with _ | x
    · rw [hx] at this; exact absurd this (by simp)
    · simp [optOr, hx]

theorem ffStep_lookup (st : List (String × String)) (r : RtRow) (v : String) :
    List.lookup v (ffStep st r) =
      optOr (if r.vehicle_id == v && r.route_id.isSome then r.route_id else none)
        (List.lookup v st) := by
  cases hr : r.route_id with
  | none => simp [ffStep, hr, optOr]
  | some u =>
    simp only [ffStep, hr, List.lookup, Option.isSome_some, Bool.and_true]
    rcases hv : v == r.vehicle_id with _ | _
    · have hv2 : (r.vehicle_id == v) = false := by
        rw [beq_eq_false_iff_ne] at hv ⊢
        exact fun hev => hv hev.symm
      simp [hv2, optOr]
    · have hv2 : (r.vehicle_id == v) = true := by
        simp only [beq_iff_eq] at hv ⊢
        exact hv.symm
      simp [hv2, optOr]

theorem forwardFillVeh_length (st : List (String × String)) (rs : List RtRow) :
    (forwardFillVeh st rs).length = rs.length := by
  induction rs generalizing st with
  | nil => rfl
  | cons r rs ih => simp [forwardFillVeh, ih]

theorem forwardFillVeh_getD (rs : List RtRow) (st : List (String × String)) (i : Nat)
    (h : i < rs.length) :
    (forwardFillVeh st rs).getD i none =
      optOr (lastRoute (rs.take (i + 1)) ((rs.getD i dR).vehicle_id))
        (List.lookup ((rs.getD i dR).vehicle_id) st) := by
  induction rs generalizing st i with
  | nil => exact absurd h (by simp)
  | cons r rs ih =>
    cases i with
    | zero =>
      simp only [forwardFillVeh, List.getD, List.getElem?_cons_zero, List.take_succ_cons,
        List.take_zero, Option.getD_some]
      rw [lastRoute_cons, lastRoute_nil, ffStep_lookup]
      rfl
    | succ i =>
      have hi : i < rs.length := by simpa using h
      simp only [forwardFillVeh, List.getD_cons_succ, List.take_succ_cons]
      rw [ih (ffStep st r) i hi, lastRoute_cons, ffStep_lookup, optOr_assoc]

theorem backwardFill_getD (s : List RtRow) (i : Nat) (h : i < s.length) :
    ((forwardFillVeh [] s.reverse).reverse).getD i none =
      firstRoute (s.drop i) ((s.getD i dR).vehicle_id) := by
  have hlen : (forwardFillVeh [] s.reverse).length = s.length := by
    rw [forwardFillVeh_length, List.length_reverse]
  have hrev : i < (forwardFillVeh [] s.reverse).reverse.length := by
    simpa [hlen] using h
  have hj : s.length - 1 - i < s.reverse.length := by
    simp only [List.length_reverse]; omega
  rw [List.getD_eq_getElem _ _ hrev, List.getElem_reverse,
    ← List.getD_eq_getElem (forwardFillVeh [] s.reverse) none
      (by simp only [hlen, List.length_reverse] at hj ⊢; omega)]
  have hj2 : (forwardFillVeh [] s.reverse).length - 1 - i = s.length - 1 - i := by
    rw [hlen]
  rw [hj2, forwardFillVeh_getD s.reverse [] (s.length - 1 - i) hj]
  have hv : (s.reverse.getD (s.length - 1 - i) dR).vehicle_id = (s.getD i dR).vehicle_id := by
    have h1 : s.length - 1 - i < s.reverse.length := hj
    rw [List.getD_eq_getElem _ _ h1, List.getElem_reverse,
      ← List.getD_eq_getElem s dR (by omega)]
    congr 2
    omega
  rw [hv]
  have htake : s.length - 1 - i + 1 = s.length - i := by omega
  rw [htake]
  have hrevtake : lastRoute (s.reverse.take (s.length - i)) ((s.getD i dR).vehicle_id) =
      firstRoute (s.drop i) ((s.getD i dR).vehicle_id) := by
    unfold lastRoute
    congr 1
    rw [List.reverse_take, List.reverse_reverse, List.length_reverse]
    congr 1
    omega
  rw [hrevtake]
  exact optOr_none_right _

theorem impute_length (df : List RtRow) :
    (imputeRouteFromNeighbors df).length = (sortRt df).length := by
  simp [imputeRouteFromNeighbors, List.length_zipWith, List.length_zip,
    forwardFillVeh_length]

theorem impute_getD (df : List RtRow) (i : Nat) (h : i < (sortRt df).length) :
    (imputeRouteFromNeighbors df).getD i dR =
      imputeStep ((sortRt df).getD i dR)
        (lastRoute ((sortRt df).take (i + 1)) (((sortRt df).getD i dR).vehicle_id),
          firstRoute ((sortRt df).drop i) (((sortRt df).getD i dR).vehicle_id)) := by
  have hff : (forwardFillVeh [] (sortRt df)).length = (sortRt df).length :=
    forwardFillVeh_length _ _
  have hbf : ((forwardFillVeh [] (sortRt df).reverse).reverse).length = (sortRt df).length := by
    simp [forwardFillVeh_length]
  have hout : i < (imputeRouteFromNeighbors df).length := by
    rw [impute_length]; exact h
  rw [List.getD_eq_getElem _ _ hout]
  unfold imputeRouteFromNeighbors
  rw [List.getElem_zipWith, List.getElem_zip]
  rw [← List.getD_eq_getElem (sortRt df) dR h,
    ← List.getD_eq_getElem (forwardFillVeh [] (sortRt df)) none (by rw [hff]; exact h),
    ← List.getD_eq_getElem ((forwardFillVeh [] (sortRt df).reverse).reverse) none
      (by rw [hbf]; exact h)]
  rw [forwardFillVeh_getD (sortRt df) [] i h, backwardFill_getD (sortRt df) i h]
  simp [optOr_none_right, List.lookup]

theorem firstRoute_skip_null (r : RtRow) (q : List RtRow) (v : String)
    (hr : r.route_id = none) : firstRoute (r :: q) v = firstRoute q v := by
  rw [firstRoute_cons, hr]
  simp

theorem take_succ_of_lt (s : List RtRow) (i : Nat) (h : i < s.length) :
    s.take (i + 1) = s.take i ++ [s.getD i dR] := by
  rw [List.take_succ, List.getD_eq_getElem s dR h]
  simp [List.getElem?_eq_getElem h]

theorem lastRoute_append_null (p : List RtRow) (r : RtRow) (v : String)
    (hr : r.route_id = none) : lastRoute (p ++ [r]) v = lastRoute p v := by
  unfold lastRoute
  rw [List.reverse_append]
  simp only [List.reverse_cons, List.reverse_nil, List.nil_append, List.singleton_append]
  exact firstRoute_skip_null r p.reverse v hr

theorem rtLe_total (a b : RtRow) : (rtLe a b || rtLe b a) = true := by
  unfold rtLe
  rcases lt_trichotomy a.vehicle_id.data b.vehicle_id.data with h | h | h
  · simp [h]
  · have he : a.vehicle_id = b.vehicle_id := by
      rcases ha : a.vehicle_id with ⟨da⟩
      rcases hb : b.vehicle_id with ⟨db⟩
      rw [ha, hb] at h
      exact congrArg String.mk h
    rcases le_total a.snapshot_ts b.snapshot_ts with h2 | h2 <;>
      simp [he, h2, lt_self_iff_false]
  · simp [h]

theorem rtLe_trans (a b c : RtRow) (hab : rtLe a b = true) (hbc : rtLe b c = true) :
    rtLe a c = true := by
  simp only [rtLe, Bool.or_eq_true, Bool.and_eq_true, decide_eq_true_eq] at hab hbc ⊢
  rcases hab with h1 | ⟨h1, h2⟩ <;> rcases hbc with h3 | ⟨h3, h4⟩
  · exact Or.inl (lt_trans h1 h3)
  · exact Or.inl (h3 ▸ h1)
  · exact Or.inl (h1 ▸ h3)
  · exact Or.inr ⟨h1.trans h3, h2.trans h4⟩

theorem sortRt_sorted (df : List RtRow) :
    List.Pairwise (fun a b => rtLe a b = true) (sortRt df) :=
  List.sorted_mergeSort (rtLe_trans · · ·) rtLe_total df

theorem sortRt_perm (df : List RtRow) : (sortRt df).Perm df :=
  List.mergeSort_perm df rtLe

/-- C1: impute_route_from_neighbors first sorts by (vehicle_id, snapshot_ts);
a row keeps a non-null route_id, and a null route_id becomes the nearest
preceding non-null route_id of the same vehicle exactly when that value
exists and equals the nearest following non-null route_id of the same
vehicle, staying null otherwise. -/
theorem imputeRoute_fills_agreeing_neighbors (df : List RtRow) (i : Nat)
    (h : i < (sortRt df).length) :
    (sortRt df).Perm df ∧
    List.Pairwise (fun a b => rtLe a b = true) (sortRt df) ∧
    (imputeRouteFromNeighbors df).length = (sortRt df).length ∧
    (∀ v0, ((sortRt df).getD i dR).route_id = some v0 →
      ((imputeRouteFromNeighbors df).getD i dR).route_id = some v0) ∧
    (((sortRt df).getD i dR).route_id = none →
      ((imputeRouteFromNeighbors df).getD i dR).route_id =
        if prevRoute (sortRt df) i (((sortRt df).getD i dR).vehicle_id) ≠ none ∧
            prevRoute (sortRt df) i (((sortRt df).getD i dR).vehicle_id) =
              nextRoute (sortRt df) i (((sortRt df).getD i dR).vehicle_id)
        then prevRoute (sortRt df) i (((sortRt df).getD i dR).vehicle_id)
        else none) := by
  refine ⟨sortRt_perm df, sortRt_sorted df, impute_length df, ?_, ?_⟩
  · intro v0 hv0
    rw [impute_getD df i h]
    unfold imputeStep
    rw [if_neg]
    · exact hv0
    · rintro ⟨h1, _⟩
      rw [hv0] at h1
      exact Option.noConfusion h1
  · intro hnull
    rw [impute_getD df i h]
    have htake : lastRoute ((sortRt df).take (i + 1)) (((sortRt df).getD i dR).vehicle_id) =
        prevRoute (sortRt df) i (((sortRt df).getD i dR).vehicle_id) := by
      rw [take_succ_of_lt (sortRt df) i h,
        lastRoute_append_null _ _ _ hnull]
      rfl
    have hdrop : firstRoute ((sortRt df).drop i) (((sortRt df).getD i dR).vehicle_id) =
        nextRoute (sortRt df) i (((sortRt df).getD i dR).vehicle_id) := by
      rw [List.drop_eq_getElem_cons h, ← List.getD_eq_getElem (sortRt df) dR h,
        firstRoute_skip_null _ _ _ hnull]
      rfl
    rw [htake, hdrop]
    unfold imputeStep
    by_cases hc : prevRoute (sortRt df) i (((sortRt df).getD i dR).vehicle_id) ≠ none ∧
        prevRoute (sortRt df) i (((sortRt df).getD i dR).vehicle_id) =
          nextRoute (sortRt df) i (((sortRt df).getD i dR).vehicle_id)
    · rw [if_pos ⟨hnull, hc.1, hc.2⟩, if_pos hc]
    · rw [if_neg, if_neg hc]
      · exact hnull
      · rintro ⟨_, h2, h3⟩
        exact hc ⟨h2, h3⟩

/-- Witness for C1 at a concrete frame: the null ping of vehicle v1 at
snapshot 2 is filled with route A because both neighbors carry A. -/
theorem imputeRoute_fills_agreeing_neighbors_witness :
    1 < (sortRt [{ vehicle_id := "v1", snapshot_ts := 1, route_id := some "A", payload := 10 },
        { vehicle_id := "v1", snapshot_ts := 3, route_id := some "A", payload := 30 },
        { vehicle_id := "v1", snapshot_ts := 2, route_id := none, payload := 20 }]).length ∧
    ((imputeRouteFromNeighbors
        [{ vehicle_id := "v1", snapshot_ts := 1, route_id := some "A", payload := 10 },
          { vehicle_id := "v1", snapshot_ts := 3, route_id := some "A", payload := 30 },
          { vehicle_id := "v1", snapshot_ts := 2, route_id := none, payload := 20 }]).getD 1
      dR).route_id = some "A" := by
  refine ⟨by decide, ?_⟩
  have hc := (imputeRoute_fills_agreeing_neighbors
    [{ vehicle_id := "v1", snapshot_ts := 1, route_id := some "A", payload := 10 },
      { vehicle_id := "v1", snapshot_ts := 3, route_id := some "A", payload := 30 },
      { vehicle_id := "v1", snapshot_ts := 2, route_id := none, payload := 20 }]
    1 (by decide)).2.2.2.2
  rw [hc (by decide)]
  decide

/-- C8: impute_route_from_neighbors is a frame over route_id: it neither
adds nor removes rows, and every column other than route_id keeps the
value it has after the sort. -/
theorem imputeRoute_frame (df : List RtRow) (i : Nat) :
    (imputeRouteFromNeighbors df).length = (sortRt df).length ∧
    ((imputeRouteFromNeighbors df).getD i dR).vehicle_id =
      ((sortRt df).getD i dR).vehicle_id ∧
    ((imputeRouteFromNeighbors df).getD i dR).snapshot_ts =
      ((sortRt df).getD i dR).snapshot_ts ∧
    ((imputeRouteFromNeighbors df).getD i dR).payload =
      ((sortRt df).getD i dR).payload := by
  refine ⟨impute_length df, ?_⟩
  by_cases h : i < (sortRt df).length
  · rw [impute_getD df i h]
    unfold imputeStep
    by_cases hc : ((sortRt df).getD i dR).route_id = none ∧
        (lastRoute ((sortRt df).take (i + 1)) (((sortRt df).getD i dR).vehicle_id),
          firstRoute ((sortRt df).drop i) (((sortRt df).getD i dR).vehicle_id)).1 ≠ none ∧
        (lastRoute ((sortRt df).take (i + 1)) (((sortRt df).getD i dR).vehicle_id),
          firstRoute ((sortRt df).drop i) (((sortRt df).getD i dR).vehicle_id)).1 =
          (lastRoute ((sortRt df).take (i + 1)) (((sortRt df).getD i dR).vehicle_id),
            firstRoute ((sortRt df).drop i) (((sortRt df).getD i dR).vehicle_id)).2
    · rw [if_pos hc]
      exact ⟨rfl, rfl, rfl⟩
    · rw [if_neg hc]
      exact ⟨rfl, rfl, rfl⟩
  · have h1 : (sortRt df).getD i dR = dR :=
      List.getD_eq_default _ _ (by omega)
    have h2 : (imputeRouteFromNeighbors df).getD i dR = dR :=
      List.getD_eq_default _ _ (by rw [impute_length]; omega)
    rw [h1, h2]
    exact ⟨rfl, rfl, rfl⟩

/-! Lemmas on keep-first deduplication, shared by the unique and the
group_by-first embeddings. -/

theorem dedupKeyAux_subset {α κ : Type} [DecidableEq κ] (key : α → κ) (seen : List κ)
    (l : List α) : ∀ x ∈ dedupKeyAux key seen l, x ∈ l := by
  induction l generalizing seen with
  | nil => intro x hx; exact absurd hx (by simp [dedupKeyAux])
  | cons r rs ih =>
    intro x hx
    by_cases hk : key r ∈ seen
    · simp only [dedupKeyAux, if_pos hk] at hx
      exact List.mem_cons_of_mem r (ih seen x hx)
    · simp only [dedupKeyAux, if_neg hk, List.mem_cons] at hx
      rcases hx with hx | hx
      · exact hx ▸ List.mem_cons_self r rs
      · exact List.mem_cons_of_mem r (ih (key r :: seen) x hx)

theorem dedupKeyAux_key_notin_seen {α κ : Type} [DecidableEq κ] (key : α → κ)
    (seen : List κ) (l : List α) : ∀ x ∈ dedupKeyAux key seen l, key x ∉ seen := by
  induction l generalizing seen with
  | nil => intro x hx; exact absurd hx (by simp [dedupKeyAux])
  | cons r rs ih =>
    intro x hx
    by_cases hk : key r ∈ seen
    · simp only [dedupKeyAux, if_pos hk] at hx
      exact ih seen x hx
    · simp only [dedupKeyAux, if_neg hk, List.mem_cons] at hx
      rcases hx with hx | hx
      · exact hx ▸ hk
      · have := ih (key r :: seen) x hx
        intro hmem
        exact this (List.mem_cons_of_mem _ hmem)

theorem dedupKeyAux_find? {α κ : Type} [DecidableEq κ] (key : α → κ) (seen : List κ)
    (l : List α) : ∀ x ∈ dedupKeyAux key seen l,
      l.find? (fun q => key q == key x) = some x := by
  induction l generalizing seen with
  | nil => intro x hx; exact absurd hx (by simp [dedupKeyAux])
  | cons r rs ih =>
    intro x hx
    by_cases hk : key r ∈ seen
    · simp only [dedupKeyAux, if_pos hk] at hx
      have hne : key x ≠ key r := by
        intro hcontra
        exact dedupKeyAux_key_notin_seen key seen rs x hx (hcontra ▸ hk)
      rw [List.find?_cons_of_neg, ih seen x hx]
      simp only [beq_iff_eq]
      exact fun hcontra => hne hcontra.symm
    · simp only [dedupKeyAux, if_neg hk, List.mem_cons] at hx
      rcases hx with hx | hx
      · subst hx
        rw [List.find?_cons_of_pos]
        simp
      · have hne : key x ≠ key r := by
          intro hcontra
          exact dedupKeyAux_key_notin_seen key (key r :: seen) rs x hx
            (hcontra ▸ List.mem_cons_self _ _)
        rw [List.find?_cons_of_neg, ih (key r :: seen) x hx]
        simp only [beq_iff_eq]
        exact fun hcontra => hne hcontra.symm

theorem dedupKeyAux_nodup_keys {α κ : Type} [DecidableEq κ] (key : α → κ) (seen : List κ)
    (l : List α) : ((dedupKeyAux key seen l).map key).Nodup := by
  induction l generalizing seen with
  | nil => simp [dedupKeyAux]
  | cons r rs ih =>
    by_cases hk : key r ∈ seen
    · simpa [dedupKeyAux, if_pos hk] using ih seen
    · simp only [dedupKeyAux, if_neg hk, List.map_cons, List.nodup_cons]
      refine ⟨?_, ih (key r :: seen)⟩
      intro hmem
      rcases List.mem_map.mp hmem with ⟨y, hy, hky⟩
      exact dedupKeyAux_key_notin_seen key (key r :: seen) rs y hy
        (hky ▸ List.mem_cons_self _ _)

theorem dedupKeyAux_covers {α κ : Type} [DecidableEq κ] (key : α → κ) (seen : List κ)
    (l : List α) : ∀ x ∈ l, key x ∉ seen →
      ∃ y, y ∈ dedupKeyAux key seen l ∧ key y = key x := by
  induction l generalizing seen with
  | nil => intro x hx; exact absurd hx (by simp)
  | cons r rs ih =>
    intro x hx hseen
    by_cases hk : key r ∈ seen
    · simp only [dedupKeyAux, if_pos hk]
      rcases List.mem_cons.mp hx with hx | hx
      · exact absurd hk (hx ▸ hseen)
      · exact ih seen x hx hseen
    · simp only [dedupKeyAux, if_neg hk]
      by_cases hxr : key x = key r
      · exact ⟨r, List.mem_cons_self _ _, hxr.symm⟩
      · rcases List.mem_cons.mp hx with hx | hx
        · exact absurd (congrArg key hx) hxr
        · rcases ih (key r :: seen) x hx (by
            intro hmem
            rcases List.mem_cons.mp hmem with hmem | hmem
            · exact hxr hmem
            · exact hseen hmem) with ⟨y, hy, hky⟩
          exact ⟨y, List.mem_cons_of_mem r hy, hky⟩

/-- C5: remove_duplicate_observations keeps, for every key present in the
frame, exactly one row, namely the first row of the frame carrying that
key; every output row is an input row, and a row whose key occurs exactly
once passes through. -/
theorem removeDuplicateObservations_keeps_first {α κ : Type} [DecidableEq κ]
    (key : α → κ) (df : List α) (x : α) (hx : x ∈ df) :
    (∀ r ∈ removeDuplicateObservations key df, r ∈ df) ∧
    (∃ r, r ∈ removeDuplicateObservations key df ∧ key r = key x ∧
      df.find? (fun q => key q == key x) = some r ∧
      (∀ r2 ∈ removeDuplicateObservations key df, key r2 = key x → r2 = r)) ∧
    ((df.filter (fun q => key q == key x)).length = 1 →
      x ∈ removeDuplicateObservations key df) := by
  refine ⟨dedupKeyAux_subset key [] df, ?_, ?_⟩
  · rcases dedupKeyAux_covers key [] df x hx (by simp) with ⟨y, hy, hky⟩
    refine ⟨y, hy, hky, ?_, ?_⟩
    · have hfind := dedupKeyAux_find? key [] df y hy
      have hpred : (fun q => key q == key y) = (fun q => key q == key x) := by
        funext q
        rw [hky]
      rw [hpred] at hfind
      exact hfind
    · intro r2 hr2 hkr2
      exact List.inj_on_of_nodup_map (dedupKeyAux_nodup_keys key [] df) hr2 hy
        (hkr2.trans hky.symm)
  · intro hcount
    rcases List.length_eq_one.mp hcount with ⟨a, ha⟩
    rcases dedupKeyAux_covers key [] df x hx (by simp) with ⟨y, hy, hky⟩
    have hxa : x = a := by
      have hxf : x ∈ df.filter (fun q => key q == key x) :=
        List.mem_filter.mpr ⟨hx, by simp⟩
      rw [ha] at hxf
      simpa using hxf
    have hya : y = a := by
      have hyf : y ∈ df.filter (fun q => key q == key x) :=
        List.mem_filter.mpr ⟨dedupKeyAux_subset key [] df y hy, by simp [hky]⟩
      rw [ha] at hyf
      simpa using hyf
    rw [hxa, ← hya]
    exact hy

/-- Witness for C5 at a concrete frame with keys mod 3: the key of row 1
occurs once, so row 1 survives the deduplication. -/
theorem removeDuplicateObservations_keeps_first_witness :
    (1 : Nat) ∈ [1, 2, 3] ∧
    (([1, 2, 3] : List Nat).filter (fun q => q % 3 == 1 % 3)).length = 1 ∧
    (1 : Nat) ∈ removeDuplicateObservations (fun n => n % 3) [1, 2, 3] := by
  refine ⟨by decide, by decide, ?_⟩
  exact (removeDuplicateObservations_keeps_first (fun n => n % 3) [1, 2, 3] 1
    (by decide)).2.2 (by decide)

/-! Lemmas on trip segmentation. -/

theorem seqLe_total (a b : SeqRow) : (seqLe a b || seqLe b a) = true := by
  unfold seqLe
  rcases lt_trichotomy a.vehicle_id.data b.vehicle_id.data with h | h | h
  · simp [h]
  · have he : a.vehicle_id = b.vehicle_id := by
      rcases ha : a.vehicle_id with ⟨da⟩
      rcases hb : b.vehicle_id with ⟨db⟩
      rw [ha, hb] at h
      exact congrArg String.mk h
    rcases le_total a.snapshot_ts b.snapshot_ts with h2 | h2 <;>
      simp [he, h2, lt_self_iff_false]
  · simp [h]

theorem seqLe_trans (a b c : SeqRow) (hab : seqLe a b = true) (hbc : seqLe b c = true) :
    seqLe a c = true := by
  simp only [seqLe, Bool.or_eq_true, Bool.and_eq_true, decide_eq_true_eq] at hab hbc ⊢
  rcases hab with h1 | ⟨h1, h2⟩ <;> rcases hbc with h3 | ⟨h3, h4⟩
  · exact Or.inl (lt_trans h1 h3)
  · exact Or.inl (h3 ▸ h1)
  · exact Or.inl (h1 ▸ h3)
  · exact Or.inr ⟨h1.trans h3, h2.trans h4⟩

theorem sortSeq_sorted (df : List SeqRow) :
    List.Pairwise (fun a b => seqLe a b = true) (sortSeq df) :=
  List.sorted_mergeSort (seqLe_trans · · ·) seqLe_total df

theorem sortSeq_perm (df : List SeqRow) : (sortSeq df).Perm df :=
  List.mergeSort_perm df seqLe

theorem deriveTripCounts_length (df : List SeqRow) :
    (deriveTripCounts df).length = (sortSeq df).length := by
  simp [deriveTripCounts]

theorem deriveTripCounts_getD (df : List SeqRow) (i : Nat) (h : i < (sortSeq df).length) :
    (deriveTripCounts df).getD i (dS, 0) =
      ((sortSeq df).getD i dS, tripCountAt (sortSeq df) i) := by
  have h2 : i < (deriveTripCounts df).length := by rw [deriveTripCounts_length]; exact h
  rw [List.getD_eq_getElem _ _ h2]
  unfold deriveTripCounts
  rw [List.getElem_map, List.getElem_range]

theorem tripCond_none_right (c : Option Int) : tripCond c none = none := by
  cases c <;> rfl

theorem lift2_some_some (f : Int → Int → Bool) (a b : Int) :
    lift2 f (some a) (some b) = some (f a b) := rfl

theorem kOr_some_some (x y : Bool) : kOr (some x) (some y) = some (x || y) := by
  cases x <;> cases y <;> rfl

theorem firstPing_shift_none (s : List SeqRow) (i : Nat)
    (hfirst : ∀ k, (hk : k < i) → k < s.length →
      (s.getD k dS).vehicle_id ≠ (s.getD i dS).vehicle_id) :
    shiftSeqOver s i ((s.getD i dS).vehicle_id) = none := by
  unfold shiftSeqOver
  rw [List.find?_eq_none.mpr]
  · rfl
  · intro x hx
    rcases List.mem_iff_getElem.mp (List.mem_reverse.mp hx) with ⟨k, hk, hget⟩
    have hk2 : k < i := by
      have := hk
      simp only [List.length_take] at this
      omega
    have hk3 : k < s.length := by
      have := hk
      simp only [List.length_take] at this
      omega
    have hx2 : x = s.getD k dS := by
      rw [List.getD_eq_getElem s dS hk3, ← hget, List.getElem_take]
    rw [hx2]
    simp only [beq_iff_eq, decide_eq_true_eq]
    exact hfirst k hk2 hk3

theorem firstPing_isNew (s : List SeqRow) (i : Nat)
    (hfirst : ∀ k, (hk : k < i) → k < s.length →
      (s.getD k dS).vehicle_id ≠ (s.getD i dS).vehicle_id) :
    isNewTrip s i = true := by
  unfold isNewTrip
  rw [firstPing_shift_none s i hfirst, tripCond_none_right]
  rfl

theorem filter_singleton_length (p : Nat → Bool) (m : Nat) :
    (List.filter p [m]).length = if p m = true then 1 else 0 := by
  rcases h : p m with _ | _ <;> simp [List.filter, h]

theorem tcnt_succ (s : List SeqRow) (i m : Nat) :
    tcnt s i (m + 1) = tcnt s i m +
      (if ((s.getD m dS).vehicle_id == (s.getD i dS).vehicle_id && isNewTrip s m) = true
        then 1 else 0) := by
  unfold tcnt
  rw [List.range_succ, List.filter_append, List.length_append,
    filter_singleton_length]

theorem tcnt_mono (s : List SeqRow) (i m m2 : Nat) (h : m ≤ m2) :
    tcnt s i m ≤ tcnt s i m2 := by
  unfold tcnt
  have hsub : (List.range m).Sublist (List.range m2) := by
    have := List.take_range m m2
    rw [min_eq_left h] at this
    rw [← this]
    exact List.take_sublist m (List.range m2)
  exact List.Sublist.length_le (List.Sublist.filter _ hsub)

theorem tcnt_stable (s : List SeqRow) (i m : Nat) (him : i + 1 ≤ m)
    (hbet : ∀ k, i < k → k < m →
      (s.getD k dS).vehicle_id ≠ (s.getD i dS).vehicle_id) :
    tcnt s i m = tcnt s i (i + 1) := by
  induction m with
  | zero => omega
  | succ m ih =>
    by_cases hm : i + 1 ≤ m
    · rw [tcnt_succ]
      have hm2 : (s.getD m dS).vehicle_id ≠ (s.getD i dS).vehicle_id :=
        hbet m (by omega) (by omega)
      rw [if_neg]
      · rw [ih hm (fun k hk1 hk2 => hbet k hk1 (by omega))]
        omega
      · simp only [Bool.and_eq_true, beq_iff_eq]
        rintro ⟨hcontra, _⟩
        exact hm2 hcontra
    · have : m = i := by omega
      rw [this]

/-- C2: derive_trip_counts sorts by (vehicle_id, snapshot_ts); a ping with
no preceding ping of its vehicle starts a new trip, a ping whose own and
previous sequences are present starts one exactly when the sequence
shrinks or jumps by more than 5, every ping of an all-non-null frame has a
sequence, and trip_count counts the new-trip pings of the vehicle so far
(so a vehicle's first ping has trip_count 1). -/
theorem deriveTripCounts_segmentation (df : List SeqRow)
    (hnn : ∀ r ∈ df, r.seq ≠ none) (i : Nat) (h : i < (sortSeq df).length) :
    (sortSeq df).Perm df ∧
    List.Pairwise (fun a b => seqLe a b = true) (sortSeq df) ∧
    (deriveTripCounts df).length = (sortSeq df).length ∧
    (deriveTripCounts df).getD i (dS, 0) =
      ((sortSeq df).getD i dS, tripCountAt (sortSeq df) i) ∧
    ((sortSeq df).getD i dS).seq ≠ none ∧
    (((sortSeq df).take i).reverse.find?
        (fun q => q.vehicle_id == ((sortSeq df).getD i dS).vehicle_id) = none →
      isNewTrip (sortSeq df) i = true ∧ tripCountAt (sortSeq df) i = 1) ∧
    (∀ p c q, ((sortSeq df).take i).reverse.find?
          (fun q2 => q2.vehicle_id == ((sortSeq df).getD i dS).vehicle_id) = some p →
        ((sortSeq df).getD i dS).seq = some c → p.seq = some q →
        (isNewTrip (sortSeq df) i = true ↔ (c < q ∨ 5 < (c - q).natAbs))) ∧
    tripCountAt (sortSeq df) i =
      ((List.range (i + 1)).filter (fun j =>
        ((sortSeq df).getD j dS).vehicle_id == ((sortSeq df).getD i dS).vehicle_id &&
          isNewTrip (sortSeq df) j)).length := by
  refine ⟨sortSeq_perm df, sortSeq_sorted df, deriveTripCounts_length df,
    deriveTripCounts_getD df i h, ?_, ?_, ?_, rfl⟩
  · have hmem : (sortSeq df).getD i dS ∈ sortSeq df := by
      rw [List.getD_eq_getElem _ _ h]
      exact List.getElem_mem h
    exact hnn _ ((sortSeq_perm df).mem_iff.mp hmem)
  · intro hnone
    have hfirst : ∀ k, (hk : k < i) → k < (sortSeq df).length →
        ((sortSeq df).getD k dS).vehicle_id ≠ ((sortSeq df).getD i dS).vehicle_id := by
      intro k hk hk2
      have hmem : (sortSeq df).getD k dS ∈ ((sortSeq df).take i).reverse := by
        rw [List.mem_reverse]
        have hkt : k < ((sortSeq df).take i).length := by
          simp only [List.length_take]
          omega
        have : ((sortSeq df).take i)[k] = (sortSeq df).getD k dS := by
          rw [List.getElem_take, List.getD_eq_getElem _ _ hk2]
        rw [← this]
        exact List.getElem_mem hkt
      have := List.find?_eq_none.mp hnone _ hmem
      simpa using this
    have hnew : isNewTrip (sortSeq df) i = true := firstPing_isNew _ i hfirst
    refine ⟨hnew, ?_⟩
    have hcount : tripCountAt (sortSeq df) i = tcnt (sortSeq df) i (i + 1) := rfl
    rw [hcount, tcnt_succ]
    have hzero : tcnt (sortSeq df) i i = 0 := by
      unfold tcnt
      rw [List.length_eq_zero, List.filter_eq_nil_iff]
      intro k hk
      have hki : k < i := List.mem_range.mp hk
      simp only [Bool.and_eq_true, beq_iff_eq]
      rintro ⟨hcontra, _⟩
      exact hfirst k hki (by omega) hcontra
    have hcondTrue : (((sortSeq df).getD i dS).vehicle_id ==
        ((sortSeq df).getD i dS).vehicle_id && isNewTrip (sortSeq df) i) = true := by
      rw [Bool.and_eq_true]
      exact ⟨by simp, hnew⟩
    rw [hzero, if_pos hcondTrue]
  · intro p c q hfind hc hq
    unfold isNewTrip shiftSeqOver
    rw [hfind]
    have hbind : (some p).bind SeqRow.seq = some q := by
      rw [hq.symm]
      rfl
    rw [hbind, hc]
    have hcond : (tripCond (some c) (some q)).getD true =
        (decide (c < q) || decide (5 < (c - q).natAbs)) := by
      unfold tripCond
      rw [lift2_some_some, lift2_some_some, kOr_some_some]
      rfl
    rw [hcond]
    simp [Bool.or_eq_true, decide_eq_true_eq]

/-- Witness for C2 at a concrete frame: the third ping of vehicle v1 has a
smaller sequence than its predecessor and therefore starts a new trip. -/
theorem deriveTripCounts_segmentation_witness :
    (∀ r ∈ ([{ vehicle_id := "v1", snapshot_ts := 1, seq := some 1 },
        { vehicle_id := "v1", snapshot_ts := 2, seq := some 3 },
        { vehicle_id := "v1", snapshot_ts := 3, seq := some 2 }] : List SeqRow),
      r.seq ≠ none) ∧
    2 < (sortSeq [{ vehicle_id := "v1", snapshot_ts := 1, seq := some 1 },
        { vehicle_id := "v1", snapshot_ts := 2, seq := some 3 },
        { vehicle_id := "v1", snapshot_ts := 3, seq := some 2 }]).length ∧
    isNewTrip (sortSeq [{ vehicle_id := "v1", snapshot_ts := 1, seq := some 1 },
        { vehicle_id := "v1", snapshot_ts := 2, seq := some 3 },
        { vehicle_id := "v1", snapshot_ts := 3, seq := some 2 }]) 2 = true := by
  refine ⟨by decide, by decide, ?_⟩
  have hiff := (deriveTripCounts_segmentation
    [{ vehicle_id := "v1", snapshot_ts := 1, seq := some 1 },
      { vehicle_id := "v1", snapshot_ts := 2, seq := some 3 },
      { vehicle_id := "v1", snapshot_ts := 3, seq := some 2 }]
    (by decide) 2 (by decide)).2.2.2.2.2.2.1
  exact (hiff { vehicle_id := "v1", snapshot_ts := 2, seq := some 3 } 2 3
    (by decide) (by decide) (by decide)).mpr (by decide)

theorem firstPing_count (s : List SeqRow) (i : Nat)
    (hfirst : ∀ k, k < i → (s.getD k dS).vehicle_id ≠ (s.getD i dS).vehicle_id) :
    tripCountAt s i = 1 := by
  have hnew : isNewTrip s i = true := firstPing_isNew s i (fun k hk _ => hfirst k hk)
  have hzero : tcnt s i i = 0 := by
    unfold tcnt
    rw [List.length_eq_zero, List.filter_eq_nil_iff]
    intro k hk
    have hki : k < i := List.mem_range.mp hk
    simp only [Bool.and_eq_true, beq_iff_eq]
    rintro ⟨hcontra, _⟩
    exact hfirst k hki hcontra
  have hcondTrue : ((s.getD i dS).vehicle_id == (s.getD i dS).vehicle_id &&
      isNewTrip s i) = true := by
    rw [Bool.and_eq_true]
    exact ⟨by simp, hnew⟩
  have hdef : tripCountAt s i = tcnt s i (i + 1) := rfl
  rw [hdef, tcnt_succ, hzero, if_pos hcondTrue]

theorem tcnt_congr (s : List SeqRow) (i j m : Nat)
    (hveh : (s.getD i dS).vehicle_id = (s.getD j dS).vehicle_id) :
    tcnt s i m = tcnt s j m := by
  unfold tcnt
  have hfun : (fun k => (s.getD k dS).vehicle_id == (s.getD i dS).vehicle_id &&
        isNewTrip s k) =
      (fun k => (s.getD k dS).vehicle_id == (s.getD j dS).vehicle_id && isNewTrip s k) := by
    funext k
    rw [hveh]
  rw [hfun]

/-- C9: in the output of derive_trip_counts, trip_count is 1 on a vehicle's
earliest ping, non-decreasing along the sorted order inside one vehicle,
and grows by at most 1 between consecutive pings of the same vehicle. -/
theorem deriveTripCounts_monotone (df : List SeqRow) (i j : Nat)
    (_hi : i < (sortSeq df).length) (_hj : j < (sortSeq df).length) (hij : i ≤ j)
    (hveh : ((sortSeq df).getD i dS).vehicle_id = ((sortSeq df).getD j dS).vehicle_id) :
    ((∀ k, k < i →
        ((sortSeq df).getD k dS).vehicle_id ≠ ((sortSeq df).getD i dS).vehicle_id) →
      tripCountAt (sortSeq df) i = 1) ∧
    tripCountAt (sortSeq df) i ≤ tripCountAt (sortSeq df) j ∧
    ((∀ k, i < k → k < j →
        ((sortSeq df).getD k dS).vehicle_id ≠ ((sortSeq df).getD i dS).vehicle_id) →
      tripCountAt (sortSeq df) j ≤ tripCountAt (sortSeq df) i + 1) := by
  refine ⟨fun hfirst => firstPing_count (sortSeq df) i hfirst, ?_, ?_⟩
  · have h1 : tripCountAt (sortSeq df) i = tcnt (sortSeq df) i (i + 1) := rfl
    have h2 : tripCountAt (sortSeq df) j = tcnt (sortSeq df) j (j + 1) := rfl
    rw [h1, h2, ← tcnt_congr (sortSeq df) i j (j + 1) hveh]
    exact tcnt_mono (sortSeq df) i (i + 1) (j + 1) (by omega)
  · intro hbet
    by_cases hltij : i < j
    · have h1 : tripCountAt (sortSeq df) j = tcnt (sortSeq df) i (j + 1) := by
        have hd : tripCountAt (sortSeq df) j = tcnt (sortSeq df) j (j + 1) := rfl
        rw [hd, ← tcnt_congr (sortSeq df) i j (j + 1) hveh]
      rw [h1, tcnt_succ, tcnt_stable (sortSeq df) i j (by omega) hbet]
      have hd2 : tripCountAt (sortSeq df) i = tcnt (sortSeq df) i (i + 1) := rfl
      rw [hd2]
      split <;> omega
    · have hii : i = j := by omega
      subst hii
      omega

/-- Witness for C9 at a concrete frame with two pings of one vehicle. -/
theorem deriveTripCounts_monotone_witness :
    0 < (sortSeq [{ vehicle_id := "v1", snapshot_ts := 1, seq := some 1 },
        { vehicle_id := "v1", snapshot_ts := 2, seq := some 2 }]).length ∧
    1 < (sortSeq [{ vehicle_id := "v1", snapshot_ts := 1, seq := some 1 },
        { vehicle_id := "v1", snapshot_ts := 2, seq := some 2 }]).length ∧
    ((sortSeq [{ vehicle_id := "v1", snapshot_ts := 1, seq := some 1 },
        { vehicle_id := "v1", snapshot_ts := 2, seq := some 2 }]).getD 0 dS).vehicle_id =
      ((sortSeq [{ vehicle_id := "v1", snapshot_ts := 1, seq := some 1 },
        { vehicle_id := "v1", snapshot_ts := 2, seq := some 2 }]).getD 1 dS).vehicle_id ∧
    tripCountAt (sortSeq [{ vehicle_id := "v1", snapshot_ts := 1, seq := some 1 },
        { vehicle_id := "v1", snapshot_ts := 2, seq := some 2 }]) 0 ≤
      tripCountAt (sortSeq [{ vehicle_id := "v1", snapshot_ts := 1, seq := some 1 },
        { vehicle_id := "v1", snapshot_ts := 2, seq := some 2 }]) 1 := by
  refine ⟨by decide, by decide, by decide, ?_⟩
  exact (deriveTripCounts_monotone
    [{ vehicle_id := "v1", snapshot_ts := 1, seq := some 1 },
      { vehicle_id := "v1", snapshot_ts := 2, seq := some 2 }] 0 1
    (by decide) (by decide) (by decide) (by decide)).2.1

/-! Lemmas on the tar2parquet accumulation loop. -/

theorem stepResult_addSkip (allowed : Option (List String)) (s : TarSummary)
    (r : Option (FeedType × List TarRec)) :
    stepResult allowed (addSkip s) r = addSkip (stepResult allowed s r) := by
  rcases r with _ | ⟨ft, df⟩
  · rfl
  · simp only [stepResult]
    by_cases hk : keepAgency allowed (headAgency df) = true
    · rw [if_pos hk, if_pos hk]
      cases ft <;> rfl
    · rw [if_neg hk, if_neg hk]
      rfl

theorem foldl_step_addSkip {τ : Type} (parse : τ → Option (FeedType × List TarRec))
    (allowed : Option (List String)) (tasks : List τ) (s : TarSummary) :
    tasks.foldl (fun s2 t => stepResult allowed s2 (processSingleJson parse t)) (addSkip s) =
      addSkip (tasks.foldl
        (fun s2 t => stepResult allowed s2 (processSingleJson parse t)) s) := by
  induction tasks generalizing s with
  | nil => rfl
  | cons t ts ih =>
    simp only [List.foldl_cons]
    rw [stepResult_addSkip, ih]

theorem stepResult_comm (allowed : Option (List String)) (s : TarSummary)
    (r1 r2 : Option (FeedType × List TarRec)) :
    stepResult allowed (stepResult allowed s r1) r2 =
      stepResult allowed (stepResult allowed s r2) r1 := by
  rcases r1 with _ | ⟨ft1, df1⟩
  · show stepResult allowed (addSkip s) r2 = addSkip (stepResult allowed s r2)
    exact stepResult_addSkip allowed s r2
  · rcases r2 with _ | ⟨ft2, df2⟩
    · show addSkip (stepResult allowed s (some (ft1, df1))) =
        stepResult allowed (addSkip s) (some (ft1, df1))
      exact (stepResult_addSkip allowed s (some (ft1, df1))).symm
    · simp only [stepResult]
      by_cases h1 : keepAgency allowed (headAgency df1) = true <;>
        by_cases h2 : keepAgency allowed (headAgency df2) = true <;>
        simp only [h1, h2, if_true, if_false, Bool.false_eq_true, if_neg, if_pos] <;>
        cases ft1 <;> cases ft2 <;>
        (apply TarSummary.ext <;>
          simp [Multiset.cons_swap, add_left_comm])

/-- C4: phase 2 of process_tar_to_normalized_parquet is order-insensitive:
any completion order of the parse tasks (the parallel as_completed order is
a permutation of the sequential task order) yields the same processed and
skipped counts, the same detected agencies and per-agency statistics, and
the same multiset of rows in every written (agency, feed_type, date)
partition. -/
theorem processTar_parallel_deterministic {τ : Type}
    (parse : τ → Option (FeedType × List TarRec)) (allowed : Option (List String))
    (tasks1 tasks2 : List τ) (hperm : tasks2.Perm tasks1) :
    runTasks parse allowed tasks2 = runTasks parse allowed tasks1 ∧
    (runTasks parse allowed tasks2).processed = (runTasks parse allowed tasks1).processed ∧
    (runTasks parse allowed tasks2).skipped = (runTasks parse allowed tasks1).skipped ∧
    detectedAgencies (runTasks parse allowed tasks2) =
      detectedAgencies (runTasks parse allowed tasks1) ∧
    (∀ a ft, statCount (runTasks parse allowed tasks2) a ft =
      statCount (runTasks parse allowed tasks1) a ft) ∧
    (∀ a d, partitionRows (runTasks parse allowed tasks2).tuRows a d =
        partitionRows (runTasks parse allowed tasks1).tuRows a d ∧
      partitionRows (runTasks parse allowed tasks2).vpRows a d =
        partitionRows (runTasks parse allowed tasks1).vpRows a d) := by
  have hmain : runTasks parse allowed tasks2 = runTasks parse allowed tasks1 := by
    unfold runTasks
    exact @List.Perm.foldl_eq _ _ _ _ _
      ⟨fun s t1 t2 => stepResult_comm allowed s
        (processSingleJson parse t1) (processSingleJson parse t2)⟩
      hperm initSummary
  refine ⟨hmain, ?_, ?_, ?_, ?_, ?_⟩ <;> rw [hmain]
  · exact fun a ft => rfl
  · exact fun a d => ⟨rfl, rfl⟩

/-- Witness for C4 at a concrete pair of task orders. -/
theorem processTar_parallel_deterministic_witness :
    ([2, 1] : List Nat).Perm [1, 2] ∧
    runTasks (fun n => if n == 1
        then some (FeedType.trip_updates, [{ agency := "a", date_str := "d", payload := 0 }])
        else none)
      (some ["a"]) [2, 1] =
    runTasks (fun n => if n == 1
        then some (FeedType.trip_updates, [{ agency := "a", date_str := "d", payload := 0 }])
        else none)
      (some ["a"]) [1, 2] := by
  refine ⟨by decide, ?_⟩
  exact (processTar_parallel_deterministic
    (fun n => if n == 1
      then some (FeedType.trip_updates, [{ agency := "a", date_str := "d", payload := 0 }])
      else none)
    (some ["a"]) [1, 2] [2, 1] (by decide)).1

/-- C7: a member whose extraction fails is silently dropped in phase 1, and
a task whose parse fails only increments skipped_count in phase 2: the
remaining members are processed identically and the written partition rows
are unchanged. -/
theorem processTar_skips_bad_members {γ : Type}
    (parse : String × γ × FeedType → Option (FeedType × List TarRec))
    (allowed : Option (List String)) (pre post : List (TarMember γ)) (m : TarMember γ)
    (tpre tpost : List (String × γ × FeedType)) (bad : String × γ × FeedType)
    (hm : m.content = none) (hbad : processSingleJson parse bad = none) :
    processTarToNormalizedParquet parse allowed (pre ++ m :: post) =
      processTarToNormalizedParquet parse allowed (pre ++ post) ∧
    runTasks parse allowed (tpre ++ bad :: tpost) =
      addSkip (runTasks parse allowed (tpre ++ tpost)) ∧
    (runTasks parse allowed (tpre ++ bad :: tpost)).tuRows =
      (runTasks parse allowed (tpre ++ tpost)).tuRows ∧
    (runTasks parse allowed (tpre ++ bad :: tpost)).vpRows =
      (runTasks parse allowed (tpre ++ tpost)).vpRows ∧
    (runTasks parse allowed (tpre ++ bad :: tpost)).processed =
      (runTasks parse allowed (tpre ++ tpost)).processed := by
  have hbuild : buildTasks (pre ++ m :: post) = buildTasks (pre ++ post) := by
    unfold buildTasks
    rw [List.filterMap_append, List.filterMap_append]
    congr 1
    apply List.filterMap_cons_none
    dsimp only
    split
    · cases hft : feedTypeOf m.name
      · rfl
      · rw [hm]
    · rfl
  have hrun : runTasks parse allowed (tpre ++ bad :: tpost) =
      addSkip (runTasks parse allowed (tpre ++ tpost)) := by
    unfold runTasks
    rw [List.foldl_append, List.foldl_append, List.foldl_cons, hbad]
    exact foldl_step_addSkip parse allowed tpost _
  refine ⟨?_, hrun, ?_, ?_, ?_⟩
  · unfold processTarToNormalizedParquet
    rw [hbuild]
  · rw [hrun]; rfl
  · rw [hrun]; rfl
  · rw [hrun]; rfl

/-- Witness for C7 at a concrete tar: one unreadable member and one
unparseable task are skipped while the good task is still processed. -/
theorem processTar_skips_bad_members_witness :
    ({ name := "a_trip_update_x.json", isfile := true, content := none } :
        TarMember Nat).content = none ∧
    processSingleJson (fun t => if t.2.1 == 1
        then some (FeedType.trip_updates, [{ agency := "a", date_str := "d", payload := 0 }])
        else none)
      ("bad.json", 9, FeedType.trip_updates) = none ∧
    runTasks (fun t => if t.2.1 == 1
        then some (FeedType.trip_updates, [{ agency := "a", date_str := "d", payload := 0 }])
        else none)
      none [("g.json", 1, FeedType.trip_updates), ("bad.json", 9, FeedType.trip_updates)] =
    addSkip (runTasks (fun t => if t.2.1 == 1
        then some (FeedType.trip_updates, [{ agency := "a", date_str := "d", payload := 0 }])
        else none)
      none [("g.json", 1, FeedType.trip_updates)]) := by
  refine ⟨rfl, by decide, ?_⟩
  exact (processTar_skips_bad_members
    (fun t => if t.2.1 == 1
      then some (FeedType.trip_updates, [{ agency := "a", date_str := "d", payload := 0 }])
      else none)
    none [] [] { name := "a_trip_update_x.json", isfile := true, content := none }
    [("g.json", 1, FeedType.trip_updates)] [] ("bad.json", 9, FeedType.trip_updates)
    rfl (by decide)).2.1

/-- C10: the canonical-name helper is total and always returns
gtfs_rt_{feed_type}_{ts}.json: ts is the formatted timestamp recovered
from the json header (or, when the header has none, the first entity
timestamp the scan finds), and is the epoch fallback 19700101_000000
whenever no timestamp can be extracted, converted or formatted. -/
theorem canonicalizeName_total_shape (name ftype : String) (content : Option Json) :
    (∃ tsStr, canonicalizeName name ftype content =
        "gtfs_rt_" ++ ftype ++ "_" ++ tsStr ++ ".json" ∧
      (tsStr = "19700101_000000" ∨
        ∃ t n, extractTs content = some t ∧ toPyInt t = some n ∧ fmtTs n = some tsStr)) ∧
    (extractTs content = none → canonTs content = "19700101_000000") ∧
    (∀ t, extractTs content = some t → toPyInt t = none →
      canonTs content = "19700101_000000") ∧
    (∀ t n, extractTs content = some t → toPyInt t = some n → fmtTs n = none →
      canonTs content = "19700101_000000") ∧
    (∀ fields hf t, content = some (Json.obj fields) →
      pyOr (jget fields "header") (Json.obj []) = Json.obj hf →
      pyGet hf "timestamp" = some t →
      extractTs content = some t) := by
  refine ⟨?_, ?_, ?_, ?_, ?_⟩
  · refine ⟨canonTs content, rfl, ?_⟩
    unfold canonTs
    cases hts : extractTs content with
    | none => exact Or.inl rfl
    | some t =>
      dsimp only
      cases hn : toPyInt t with
      | none => exact Or.inl rfl
      | some n =>
        dsimp only
        cases hf : fmtTs n with
        | none => exact Or.inl rfl
        | some s =>
          dsimp only
          exact Or.inr ⟨t, n, rfl, hn, hf⟩
  · intro hts
    unfold canonTs
    rw [hts]
  · intro t hts hn
    unfold canonTs
    rw [hts]
    dsimp only
    rw [hn]
  · intro t n hts hn hf
    unfold canonTs
    rw [hts]
    dsimp only
    rw [hn]
    dsimp only
    rw [hf]
  · intro fields hf t hc hpyor hts
    subst hc
    unfold extractTs
    dsimp only
    rw [hpyor]
    dsimp only
    rw [hts]

/-- Witness for C10: content that json.loads rejects falls back to the
epoch timestamp. -/
theorem canonicalizeName_total_shape_witness :
    extractTs none = none ∧ canonTs none = "19700101_000000" := by
  refine ⟨rfl, ?_⟩
  exact (canonicalizeName_total_shape "x" "trip_updates" none).2.1 rfl

/-! Lemmas on the static headway computation. -/

theorem stLe_trans (a b c : StRow) (h1 : stLe a b = true) (h2 : stLe b c = true) :
    stLe a c = true := by
  simp only [stLe, decide_eq_true_eq] at h1 h2 ⊢
  exact le_trans h1 h2

theorem stLe_total (a b : StRow) : (stLe a b || stLe b a) = true := by
  simp only [stLe, Bool.or_eq_true, decide_eq_true_eq]
  exact le_total _ _

theorem sortSt_sorted (df : List StRow) :
    List.Pairwise (fun a b => stLe a b = true) (sortSt df) :=
  List.sorted_mergeSort stLe_trans stLe_total df

theorem sortSt_perm (df : List StRow) : (sortSt df).Perm df :=
  List.mergeSort_perm df stLe

theorem staticHeadway_length (df : List StRow) :
    (staticHeadway df).length = (sortSt df).length := by
  simp [staticHeadway]

theorem staticHeadway_getD (df : List StRow) (i : Nat) (h : i < (sortSt df).length) :
    (staticHeadway df).getD i (dSt, none) =
      ((sortSt df).getD i dSt, headwayAt (sortSt df) i) := by
  have h2 : i < (staticHeadway df).length := by rw [staticHeadway_length]; exact h
  rw [List.getD_eq_getElem _ _ h2]
  unfold staticHeadway
  rw [List.getElem_map, List.getElem_range]

theorem isDigit_ne45 (c : Char) (hd : c.isDigit = true) : (c == Char.ofNat 45) = false := by
  rcases h : c == Char.ofNat 45 with _ | _
  · rfl
  · have hc : c = Char.ofNat 45 := beq_iff_eq.mp h
    rw [hc] at hd
    exact absurd hd (by decide)

theorem isDigit_ne43 (c : Char) (hd : c.isDigit = true) : (c == Char.ofNat 43) = false := by
  rcases h : c == Char.ofNat 43 with _ | _
  · rfl
  · have hc : c = Char.ofNat 43 := beq_iff_eq.mp h
    rw [hc] at hd
    exact absurd hd (by decide)

theorem digitsVal_pair (c0 c1 : Char) (h0 : c0.isDigit = true) (h1 : c1.isDigit = true) :
    digitsVal [c0, c1] = some (10 * (c0.toNat - 48) + (c1.toNat - 48)) := by
  unfold digitsVal
  rw [if_neg]
  · congr 1
    simp only [List.foldl]
    omega
  · simp [h0, h1]

theorem castInt64_pair (c0 c1 : Char) (h0 : c0.isDigit = true) (h1 : c1.isDigit = true) :
    castInt64 (String.mk [c0, c1]) =
      some (((10 * (c0.toNat - 48) + (c1.toNat - 48) : Nat) : Int)) := by
  show parseIntChars [c0, c1] = _
  unfold parseIntChars
  simp [isDigit_ne45 c0 h0, isDigit_ne43 c0 h0, digitsVal_pair c0 c1 h0 h1]

theorem depSeconds_wf (r : StRow) (hwf : timeWF r.departure_time = true) :
    ∃ c0 c1 c2 c3 c4 c5 c6 c7 rest, r.departure_time.toList =
        c0 :: c1 :: c2 :: c3 :: c4 :: c5 :: c6 :: c7 :: rest ∧
      depSeconds r = some (3600 * ((10 * (c0.toNat - 48) + (c1.toNat - 48) : Nat) : Int) +
        60 * ((10 * (c3.toNat - 48) + (c4.toNat - 48) : Nat) : Int) +
        ((10 * (c6.toNat - 48) + (c7.toNat - 48) : Nat) : Int)) := by
  unfold timeWF at hwf
  split at hwf
  next c0 c1 c2 c3 c4 c5 c6 c7 rest heq =>
    simp only [Bool.and_eq_true] at hwf
    obtain ⟨⟨⟨⟨⟨hd0, hd1⟩, hd3⟩, hd4⟩, hd6⟩, hd7⟩ := hwf
    have hs1 : sliceStr r.departure_time 0 2 = String.mk [c0, c1] := by
      unfold sliceStr
      rw [heq]
      rfl
    have hs2 : sliceStr r.departure_time 3 2 = String.mk [c3, c4] := by
      unfold sliceStr
      rw [heq]
      rfl
    have hs3 : sliceStr r.departure_time 6 2 = String.mk [c6, c7] := by
      unfold sliceStr
      rw [heq]
      rfl
    refine ⟨c0, c1, c2, c3, c4, c5, c6, c7, rest, heq, ?_⟩
    unfold depSeconds
    rw [hs1, hs2, hs3, castInt64_pair c0 c1 hd0 hd1, castInt64_pair c3 c4 hd3 hd4,
      castInt64_pair c6 c7 hd6 hd7]
  next =>
    exact absurd hwf (by simp)

theorem stKey_le_same_group (p r : StRow) (hle : stLe p r = true)
    (hg : stGroup p = stGroup r) :
    obInt (depSeconds p) ≤ obInt (depSeconds r) := by
  have hkey : stKey p ≤ stKey r := by
    simpa only [stLe, decide_eq_true_eq] using hle
  have hroute : extractRouteId p.trip_id = extractRouteId r.trip_id :=
    congrArg Prod.fst hg
  have hstop : p.stop_id = r.stop_id := congrArg Prod.snd hg
  unfold stKey at hkey
  rw [Prod.Lex.le_iff] at hkey
  dsimp only at hkey
  rcases hkey with hlt | ⟨_, hrest⟩
  · rw [hroute] at hlt
    exact absurd hlt (lt_irrefl _)
  · rw [Prod.Lex.le_iff] at hrest
    dsimp only at hrest
    rcases hrest with hlt2 | ⟨_, hle3⟩
    · rw [hstop] at hlt2
      exact absurd hlt2 (lt_irrefl _)
    · exact hle3

/-- C6: with departures sorted by (route_id_extracted, stop_id,
departure_time_seconds), headway_s equals the departure seconds minus the
seconds of the immediately preceding departure of the same
(route_id_extracted, stop_id) group, is null at the first departure of a
group, and departure_time_seconds is 3600 HH + 60 MM + SS parsed from the
fixed-width departure_time string. -/
theorem staticHeadway_diff (df : List StRow)
    (hwf : ∀ r ∈ df, timeWF r.departure_time = true) (i : Nat)
    (h : i < (sortSt df).length) :
    (sortSt df).Perm df ∧
    List.Pairwise (fun a b => stLe a b = true) (sortSt df) ∧
    (staticHeadway df).length = (sortSt df).length ∧
    (staticHeadway df).getD i (dSt, none) =
      ((sortSt df).getD i dSt, headwayAt (sortSt df) i) ∧
    (((sortSt df).take i).reverse.find?
        (fun q => decide (stGroup q = stGroup ((sortSt df).getD i dSt))) = none →
      headwayAt (sortSt df) i = none) ∧
    (∀ p, ((sortSt df).take i).reverse.find?
        (fun q => decide (stGroup q = stGroup ((sortSt df).getD i dSt))) = some p →
      ∃ a b : Int, depSeconds ((sortSt df).getD i dSt) = some a ∧ depSeconds p = some b ∧
        headwayAt (sortSt df) i = some (a - b) ∧ b ≤ a) ∧
    (∃ c0 c1 c2 c3 c4 c5 c6 c7 rest,
      ((sortSt df).getD i dSt).departure_time.toList =
        c0 :: c1 :: c2 :: c3 :: c4 :: c5 :: c6 :: c7 :: rest ∧
      depSeconds ((sortSt df).getD i dSt) =
        some (3600 * ((10 * (c0.toNat - 48) + (c1.toNat - 48) : Nat) : Int) +
          60 * ((10 * (c3.toNat - 48) + (c4.toNat - 48) : Nat) : Int) +
          ((10 * (c6.toNat - 48) + (c7.toNat - 48) : Nat) : Int))) := by
  have hmemi : (sortSt df).getD i dSt ∈ df := by
    rw [List.getD_eq_getElem _ _ h]
    exact ((sortSt_perm df).mem_iff).mp (List.getElem_mem h)
  have hwfi := hwf _ hmemi
  refine ⟨sortSt_perm df, sortSt_sorted df, staticHeadway_length df,
    staticHeadway_getD df i h, ?_, ?_, depSeconds_wf _ hwfi⟩
  · intro hnone
    unfold headwayAt
    rw [hnone]
  · intro p hp
    have hgp : stGroup p = stGroup ((sortSt df).getD i dSt) := by
      have hps := List.find?_some hp
      simpa [decide_eq_true_eq] using hps
    have hpmem : p ∈ (sortSt df).take i :=
      List.mem_reverse.mp (List.mem_of_find?_eq_some hp)
    have hpdf : p ∈ df :=
      ((sortSt_perm df).mem_iff).mp (List.take_subset i (sortSt df) hpmem)
    rcases List.mem_iff_getElem.mp hpmem with ⟨j, hj, hgetj⟩
    have hji : j < i := by
      have hjl := hj
      simp only [List.length_take] at hjl
      omega
    have hjs : j < (sortSt df).length := by
      have hjl := hj
      simp only [List.length_take] at hjl
      omega
    have hpj : (sortSt df)[j] = p := by
      rw [← hgetj, List.getElem_take]
    have hle : stLe p ((sortSt df).getD i dSt) = true := by
      have hpair := List.pairwise_iff_getElem.mp (sortSt_sorted df) j i hjs h hji
      rw [hpj] at hpair
      rw [List.getD_eq_getElem _ _ h]
      exact hpair
    rcases depSeconds_wf _ (hwf _ hpdf) with ⟨_, _, _, _, _, _, _, _, _, _, hbval⟩
    rcases depSeconds_wf _ hwfi with ⟨_, _, _, _, _, _, _, _, _, _, haval⟩
    refine ⟨_, _, haval, hbval, ?_, ?_⟩
    · unfold headwayAt
      rw [hp]
      dsimp only
      rw [haval, hbval]
    · have hwle := stKey_le_same_group p ((sortSt df).getD i dSt) hle hgp
      rw [haval, hbval] at hwle
      exact WithBot.some_le_some.mp hwle

/-- Witness for C6 at a concrete frame: the only departure of its group
has a null headway. -/
theorem staticHeadway_diff_witness :
    (∀ r ∈ ([⟨"mon_sta_3001_x", "s1", "06:10:00"⟩] : List StRow),
      timeWF r.departure_time = true) ∧
    0 < (sortSt [⟨"mon_sta_3001_x", "s1", "06:10:00"⟩]).length ∧
    headwayAt (sortSt [⟨"mon_sta_3001_x", "s1", "06:10:00"⟩]) 0 = none := by
  refine ⟨by decide, by decide, ?_⟩
  exact (staticHeadway_diff [⟨"mon_sta_3001_x", "s1", "06:10:00"⟩]
    (by decide) 0 (by decide)).2.2.2.2.1 (by decide)

/-! Lemmas on the nearest-stop computation. -/

theorem distLe_trans (a b c : CoordRow × StopRow)
    (h1 : distLe a b = true) (h2 : distLe b c = true) : distLe a c = true := by
  unfold distLe at h1 h2 ⊢
  rw [decide_eq_true_eq] at h1 h2 ⊢
  exact le_trans h1 h2

theorem distLe_total (a b : CoordRow × StopRow) : (distLe a b || distLe b a) = true := by
  unfold distLe
  rw [Bool.or_eq_true, decide_eq_true_eq, decide_eq_true_eq]
  exact le_total _ _

theorem sortByDist_sorted (l : List (CoordRow × StopRow)) :
    List.Pairwise (fun a b => distLe a b = true) (sortByDist l) :=
  List.sorted_mergeSort distLe_trans distLe_total l

theorem sortByDist_perm (l : List (CoordRow × StopRow)) : (sortByDist l).Perm l :=
  List.mergeSort_perm l distLe

theorem sorted_find?_min {α : Type} {le : α → α → Bool} {p : α → Bool} {l : List α}
    {y : α} (htotal : ∀ a b, (le a b || le b a) = true)
    (hsorted : List.Pairwise (fun a b => le a b = true) l)
    (hfind : l.find? p = some y) :
    ∀ z ∈ l, p z = true → le y z = true := by
  induction l with
  | nil => exact absurd hfind (by simp)
  | cons a l ih =>
    rcases hpa : p a with _ | _
    · rw [List.find?_cons_of_neg _ (by simp [hpa])] at hfind
      intro z hz hpz
      rcases List.mem_cons.mp hz with hz | hz
      · rw [hz] at hpz
        rw [hpz] at hpa
        exact absurd hpa (by simp)
      · exact ih (List.Pairwise.of_cons hsorted) hfind z hz hpz
    · rw [List.find?_cons_of_pos _ hpa] at hfind
      have hy : y = a := by
        injection hfind with hf
        exact hf.symm
      intro z hz hpz
      rcases List.mem_cons.mp hz with hz2 | hz2
      · rw [hy, hz2]
        have hself := htotal a a
        rw [Bool.or_self] at hself
        exact hself
      · rw [hy]
        exact (List.pairwise_cons.mp hsorted).1 z hz2

/-- C3: compute_nearest_stop returns exactly one row per input coordinate,
every output row comes from an input coordinate, and the chosen stop
realizes the minimal distance_m over the whole stops table. -/
theorem computeNearestStop_minimal (coords : List CoordRow) (stops : List StopRow)
    (c : CoordRow) (hc : c ∈ coords) (_hnd : coords.Nodup) (hs : stops ≠ []) :
    (∀ r2 ∈ computeNearestStop coords stops, ∃ c2 ∈ coords,
      r2.lat = c2.lat ∧ r2.lon = c2.lon) ∧
    (∃ r, r ∈ computeNearestStop coords stops ∧ r.lat = c.lat ∧ r.lon = c.lon ∧
      (∀ r2 ∈ computeNearestStop coords stops, r2.lat = c.lat ∧ r2.lon = c.lon → r2 = r) ∧
      (∃ s ∈ stops, r.nearest_stop = s.stop_name ∧
        r.distance_m = distance_m c.lat c.lon s.stop_lat s.stop_lon) ∧
      (∀ s2 ∈ stops, r.distance_m ≤ distance_m c.lat c.lon s2.stop_lat s2.stop_lon)) := by
  have hLperm : (sortByDist (coords.product stops)).Perm (coords.product stops) :=
    sortByDist_perm _
  constructor
  · intro r2 hr2
    rcases List.mem_map.mp hr2 with ⟨x, hx, hmk⟩
    have hxL : x ∈ sortByDist (coords.product stops) :=
      dedupKeyAux_subset coordKey [] _ x hx
    have hxP : x ∈ coords.product stops := hLperm.mem_iff.mp hxL
    have hxc : x.1 ∈ coords := by
      have := List.mem_product.mp (show (x.1, x.2) ∈ coords.product stops by
        simpa using hxP)
      exact this.1
    exact ⟨x.1, hxc, by rw [← hmk], by rw [← hmk]⟩
  · rcases List.exists_mem_of_ne_nil stops hs with ⟨s0, hs0⟩
    have hcs0 : (c, s0) ∈ coords.product stops := List.mem_product.mpr ⟨hc, hs0⟩
    have hcs0L : (c, s0) ∈ sortByDist (coords.product stops) := hLperm.mem_iff.mpr hcs0
    rcases dedupKeyAux_covers coordKey [] _ (c, s0) hcs0L (by simp) with ⟨y, hy, hky⟩
    have hyL : y ∈ sortByDist (coords.product stops) :=
      dedupKeyAux_subset coordKey [] _ y hy
    have hyP : y ∈ coords.product stops := hLperm.mem_iff.mp hyL
    have hy1 : y.1 = c := by
      have h1 : y.1.lat = c.lat := congrArg Prod.fst hky
      have h2 : y.1.lon = c.lon := congrArg Prod.snd hky
      cases y1 : y.1
      rw [y1] at h1 h2
      cases c
      simp only at h1 h2
      rw [h1, h2]
    have hy2 : y.2 ∈ stops := by
      have := List.mem_product.mp (show (y.1, y.2) ∈ coords.product stops by
        simpa using hyP)
      exact this.2
    refine ⟨⟨y.1.lat, y.1.lon, y.2.stop_name, rowDist y⟩,
      List.mem_map_of_mem _ hy, ?_, ?_, ?_, ?_, ?_⟩
    · rw [hy1]
    · rw [hy1]
    · intro r2 hr2 hr2c
      rcases List.mem_map.mp hr2 with ⟨x, hx, hmk⟩
      rw [← hmk] at hr2c
      have h1 : x.1.lat = c.lat := hr2c.1
      have h2 : x.1.lon = c.lon := hr2c.2
      have hkx : coordKey x = coordKey y := by
        show (x.1.lat, x.1.lon) = (y.1.lat, y.1.lon)
        rw [h1, h2, hy1]
      have hxy : x = y :=
        List.inj_on_of_nodup_map (dedupKeyAux_nodup_keys coordKey [] _) hx hy hkx
      rw [← hmk, hxy]
    · refine ⟨y.2, hy2, rfl, ?_⟩
      show rowDist y = distance_m c.lat c.lon y.2.stop_lat y.2.stop_lon
      unfold rowDist
      rw [hy1]
    · intro s2 hs2
      have hz : (c, s2) ∈ coords.product stops := List.mem_product.mpr ⟨hc, hs2⟩
      have hzL : (c, s2) ∈ sortByDist (coords.product stops) := hLperm.mem_iff.mpr hz
      have hfind := dedupKeyAux_find? coordKey [] _ y hy
      have hple := sorted_find?_min distLe_total (sortByDist_sorted _) hfind
        (c, s2) hzL ?_
      · have : rowDist y ≤ rowDist (c, s2) := by
          have h2 := hple
          unfold distLe at h2
          rwa [decide_eq_true_eq] at h2
        exact this
      · refine decide_eq_true ?_
        show (c.lat, c.lon) = (y.1.lat, y.1.lon)
        rw [hy1]

/-- Witness for C3 at a one-coordinate, one-stop frame. -/
theorem computeNearestStop_minimal_witness :
    (⟨1, 2⟩ : CoordRow) ∈ ([⟨1, 2⟩] : List CoordRow) ∧
    ([⟨1, 2⟩] : List CoordRow).Nodup ∧
    ([⟨"s", 1, 2⟩] : List StopRow) ≠ [] ∧
    (∃ r, r ∈ computeNearestStop [⟨1, 2⟩] [⟨"s", 1, 2⟩] ∧
      r.lat = (⟨1, 2⟩ : CoordRow).lat ∧ r.lon = (⟨1, 2⟩ : CoordRow).lon ∧
      (∀ r2 ∈ computeNearestStop [⟨1, 2⟩] [⟨"s", 1, 2⟩],
        r2.lat = (⟨1, 2⟩ : CoordRow).lat ∧ r2.lon = (⟨1, 2⟩ : CoordRow).lon → r2 = r) ∧
      (∃ s ∈ ([⟨"s", 1, 2⟩] : List StopRow), r.nearest_stop = s.stop_name ∧
        r.distance_m = distance_m (⟨1, 2⟩ : CoordRow).lat (⟨1, 2⟩ : CoordRow).lon
          s.stop_lat s.stop_lon) ∧
      (∀ s2 ∈ ([⟨"s", 1, 2⟩] : List StopRow),
        r.distance_m ≤ distance_m (⟨1, 2⟩ : CoordRow).lat (⟨1, 2⟩ : CoordRow).lon
          s2.stop_lat s2.stop_lon)) := by
  refine ⟨by decide, by decide, by decide, ?_⟩
  exact (computeNearestStop_minimal [⟨1, 2⟩] [⟨"s", 1, 2⟩] ⟨1, 2⟩
    (by decide) (by decide) (by decide)).2
